import Mathlib

/-! # CPP20.cpp : `Generator<int>` / `getNext`, `gcd`, `range`, `Student`

A shallow embedding of `CPP20.cpp`: the coroutine generator first, then the
function template `gcd`, the view pipeline of `range()` and the class
`Student` with its defaulted three-way comparison.

* `int` is modelled as an `Int` kept inside `[INT_MIN, INT_MAX]`; the one
  arithmetic operation of the generator, `value += step`, is taken modulo
  `2^32` (`wrapInt`).  In ISO C++ a signed overflow has no defined result;
  the wrap is what two's-complement targets compute.
* The coroutine frame of `getNext` is a record of its promise object and of
  the suspension point it is parked at, together with the locals that are
  alive at that point.
* Coroutine frames live in a `World`: a heap of frames addressed by index,
  the `Generator` objects that exist, and the log of `coro.destroy()` calls.
* Operations whose behaviour the language leaves undefined (a call through a
  null `coroutine_handle`, a read of the never-assigned `current_value`, ...)
  return a `Fault`.
* The body of `getNext` only copies and adds `int`s, so it raises no exception:
  `promise_type::unhandled_exception` and `return_void` are never entered and
  are not modelled.
-/

namespace CPP20

/-! ## `int` -/

/-- Smallest value of a 32-bit `int`. -/
def INT_MIN : Int := -2147483648

/-- Largest value of a 32-bit `int`. -/
def INT_MAX : Int := 2147483647

/-- The integer is representable as an `int`. -/
def isInt (x : Int) : Prop := INT_MIN ≤ x ∧ x ≤ INT_MAX

instance (x : Int) : Decidable (isInt x) := by
  unfold isInt; infer_instance

/-- Reduction of an integer into the `int` range modulo `2^32`. -/
def wrapInt (x : Int) : Int := (x + 2147483648) % 4294967296 - 2147483648

/-! ## Faults -/

/-- The ways an operation can leave defined behaviour. -/
inductive Fault
  /-- a `coroutine_handle` member was called through a null handle -/
  | nullHandle
  /-- the handle refers to a frame that has been destroyed -/
  | deadFrame
  /-- a `resume()` of a coroutine parked at its final suspend point -/
  | resumeDone
  /-- read of `current_value` before any `co_yield` has assigned it -/
  | indeterminate
  /-- member call on a `Generator` object outside its lifetime -/
  | noObject
  deriving DecidableEq, Repr

/-! ## The coroutine frame of `getNext` -/

/-- The class `Generator<int>::promise_type`: its only data member is `T current_value;`,
which `promise_type() = default` leaves unassigned (`none`). -/
structure promise_type where
  current_value : Option Int
  deriving DecidableEq, Repr

/-- Where the coroutine `getNext` is parked, with the variables alive there.
* `initial`: at `initial_suspend()` (always suspends); the parameters have been
  copied into the frame, the body has not been entered.
* `yielded`: at `co_yield value;` inside `while (true)`.
* `final`: at `final_suspend()`; this is the state `coro.done()` reports. -/
inductive Suspend
  | initial (start step : Int)
  | yielded (value step : Int)
  | final
  deriving DecidableEq, Repr

/-- A coroutine frame: the promise object and the suspended body. -/
structure Frame where
  promise : promise_type
  body : Suspend
  deriving DecidableEq, Repr

/-- The member `promise_type::yield_value(const T value)`: `current_value = value;` and
suspend (`suspend_always`). -/
def promise_type.yield_value (p : promise_type) (value : Int) : promise_type :=
  { p with current_value := some value }

/-- One resumption of the body of `getNext`, up to its next suspension:
```
auto value = start;
while (true) { co_yield value; value += step; }
```
-/
def getNext.resume (f : Frame) : Except Fault Frame :=
  match f.body with
  | Suspend.initial start step =>
      -- auto value = start;  while (true) { co_yield value;
      Except.ok { promise := f.promise.yield_value start,
                  body := Suspend.yielded start step }
  | Suspend.yielded value step =>
      -- value += step; }  while (true) { co_yield value;
      Except.ok { promise := f.promise.yield_value (wrapInt (value + step)),
                  body := Suspend.yielded (wrapInt (value + step)) step }
  | Suspend.final => Except.error Fault.resumeDone

/-- The frame is parked at its final suspend point. -/
def Frame.done (f : Frame) : Bool :=
  match f.body with
  | Suspend.final => true
  | _ => false

/-! ## The world: frames, `Generator` objects, release log -/

/-- A heap cell: a live coroutine frame or one that `destroy()` released. -/
inductive Cell
  | live (f : Frame)
  | freed
  deriving DecidableEq, Repr

/-- The class `Generator<int>`: its only data member is `handle_type coro;`
(`none` is the null handle, `some a` refers to the frame at address `a`). -/
structure Generator where
  coro : Option Nat
  deriving DecidableEq, Repr

/-- Program state.
* `frames`: coroutine frames by address; addresses are never reused.
* `objs`: `Generator` objects by identity; `none` once the destructor has run.
* `released`: the addresses passed to `coro.destroy()`, in call order. -/
structure World where
  frames : List Cell
  objs : List (Option Generator)
  released : List Nat
  deriving DecidableEq, Repr

/-- The state before anything has been created. -/
def World.empty : World := { frames := [], objs := [], released := [] }

/-! ## `std::coroutine_handle` primitives -/

/-- The call `coro.resume()` on the frame at address `a`. -/
def coro_resume (w : World) (a : Nat) : Except Fault World :=
  match w.frames[a]? with
  | some (Cell.live f) =>
      match getNext.resume f with
      | Except.ok f1 => Except.ok { w with frames := w.frames.set a (Cell.live f1) }
      | Except.error e => Except.error e
  | _ => Except.error Fault.deadFrame

/-- The call `coro.done()` on the frame at address `a`. -/
def coro_done (w : World) (a : Nat) : Except Fault Bool :=
  match w.frames[a]? with
  | some (Cell.live f) => Except.ok f.done
  | _ => Except.error Fault.deadFrame

/-- The call `coro.promise()` on the frame at address `a`. -/
def coro_promise (w : World) (a : Nat) : Except Fault promise_type :=
  match w.frames[a]? with
  | some (Cell.live f) => Except.ok f.promise
  | _ => Except.error Fault.deadFrame

/-- The call `coro.destroy()` on the frame at address `a`: the frame is released and the
call is logged. -/
def coro_destroy (w : World) (a : Nat) : Except Fault World :=
  match w.frames[a]? with
  | some (Cell.live _) =>
      Except.ok { w with frames := w.frames.set a Cell.freed,
                         released := w.released ++ [a] }
  | _ => Except.error Fault.deadFrame

/-! ## `Generator<int>` -/

/-- The `Generator` object with identity `g`, if it is within its lifetime. -/
def objAt (w : World) (g : Nat) : Except Fault Generator :=
  match w.objs[g]? with
  | some (some gen) => Except.ok gen
  | _ => Except.error Fault.noObject

/-- Address held by a handle; a null handle cannot be dereferenced. -/
def deref (h : Option Nat) : Except Fault Nat :=
  match h with
  | some a => Except.ok a
  | none => Except.error Fault.nullHandle

/-- The coroutine `Generator<int> getNext(int start, int step)`: the call allocates the frame,
copies the parameters, builds the return object with `get_return_object()`
(`Generator{ handle_type::from_promise(*this) }`) and stops at
`initial_suspend()`. Returns the new state and the identity of the object. -/
def getNext (w : World) (start step : Int) : World × Nat :=
  ({ frames := w.frames ++ [Cell.live { promise := { current_value := none },
                                         body := Suspend.initial start step }],
     objs := w.objs ++ [some { coro := some w.frames.length }],
     released := w.released },
   w.objs.length)

/-- Member `bool next() { coro.resume(); return not coro.done(); }` -/
def Generator.next (w : World) (g : Nat) : Except Fault (World × Bool) := do
  let gen ← objAt w g
  let a ← deref gen.coro
  let w1 ← coro_resume w a
  let d ← coro_done w1 a
  pure (w1, !d)

/-- Member `T getValue() { return coro.promise().current_value; }` -/
def Generator.getValue (w : World) (g : Nat) : Except Fault Int := do
  let gen ← objAt w g
  let a ← deref gen.coro
  let p ← coro_promise w a
  match p.current_value with
  | some v => pure v
  | none => Except.error Fault.indeterminate

/-- Destructor `~Generator() { if (coro) coro.destroy(); }`; the object's lifetime ends. -/
def Generator.dtor (w : World) (g : Nat) : Except Fault World := do
  let gen ← objAt w g
  let w1 ← (match gen.coro with
            | some a => coro_destroy w a
            | none => pure w)
  pure { w1 with objs := w1.objs.set g none }

/-- Move constructor `Generator(Generator&& oth) noexcept : coro(oth.coro) { oth.coro = nullptr; }`
Constructs a new object from the object `oth`; returns its identity. -/
def Generator.moveCtor (w : World) (oth : Nat) : Except Fault (World × Nat) := do
  let o ← objAt w oth
  -- : coro(oth.coro)
  let objs1 := w.objs ++ [some { coro := o.coro }]
  -- oth.coro = nullptr;
  let objs2 := objs1.set oth (some { coro := none })
  pure ({ w with objs := objs2 }, w.objs.length)

/-- Move assignment `Generator& operator = (Generator&& oth) noexcept
{ coro = oth.coro; oth.coro = nullptr; return *this; }` on the object `self`. -/
def Generator.moveAssign (w : World) (self oth : Nat) : Except Fault World := do
  let _ ← objAt w self
  let o ← objAt w oth
  -- coro = oth.coro;
  let objs1 := w.objs.set self (some { coro := o.coro })
  -- oth.coro = nullptr;
  let objs2 := objs1.set oth (some { coro := none })
  pure { w with objs := objs2 }

/-! ## The driver `coroutines()` -/

/-- The body `gen.next(); cout << " " << gen.getValue();` run `n` times;
collects the values printed. -/
def driveLoop (g : Nat) : Nat → World → Except Fault (World × List Int)
  | 0, w => pure (w, [])
  | n + 1, w => do
      let (w1, _) ← Generator.next w g
      let v ← Generator.getValue w1 g
      let (w2, vs) ← driveLoop g n w1
      pure (w2, v :: vs)

/-- The driver `void coroutines()`: `gen1 = getNext()` (defaults `0, 1`) driven by
`for (int i = 0; i <= 10; ++i)` (11 rounds), then `gen2 = getNext(100, -10)`
driven by `for (int i = 0; i <= 20; ++i)` (21 rounds); at the end of the scope
`gen2` and `gen1` are destroyed. Returns the two printed lines. -/
def coroutines (w : World) : Except Fault (World × List Int × List Int) := do
  let (w1, gen1) := getNext w 0 1
  let (w2, out1) ← driveLoop gen1 11 w1
  let (w3, gen2) := getNext w2 100 (-10)
  let (w4, out2) ← driveLoop gen2 21 w3
  let w5 ← Generator.dtor w4 gen2
  let w6 ← Generator.dtor w5 gen1
  pure (w6, out1, out2)

/-- Runs `k` successive calls `g.next()` whose results are discarded. -/
def advances (g : Nat) : Nat → World → Except Fault World
  | 0, w => pure w
  | k + 1, w => do
      let (w1, _) ← Generator.next w g
      advances g k w1

/-! ## Auxiliary descriptions of states -/

/-- Object `g` is within its lifetime, its `coro` is the address `a`, and the
frame at `a` is live with content `f`. -/
def Owns (w : World) (g a : Nat) (f : Frame) : Prop :=
  w.objs[g]? = some (some { coro := some a }) ∧ w.frames[a]? = some (Cell.live f)

/-- The frame content `k` resumptions after `getNext(start, step)` was called. -/
def frameAfter (start step : Int) : Nat → Frame
  | 0 => { promise := { current_value := none }, body := Suspend.initial start step }
  | k + 1 => { promise := { current_value := some (wrapInt (start + k * step)) },
               body := Suspend.yielded (wrapInt (start + k * step)) step }

/-- The state reached from `w` by `getNext(start, step)` and `k` resumptions of
the new frame, in closed form. -/
def worldAfter (w : World) (start step : Int) (k : Nat) : World :=
  { frames := w.frames ++ [Cell.live (frameAfter start step k)],
    objs := w.objs ++ [some { coro := some w.frames.length }],
    released := w.released }

/-! ## Programs: sequences of calls on `Generator` objects -/

/-- The calls a program can make: `getNext(start, step)`, move construction
from `oth`, `self = std::move(oth)`, `g.next()`, `g.getValue()`, and the
destructor of `g`. -/
inductive Op
  | getNext (start step : Int)
  | moveCtor (oth : Nat)
  | moveAssign (self oth : Nat)
  | next (g : Nat)
  | getValue (g : Nat)
  | dtor (g : Nat)
  deriving DecidableEq, Repr

/-- What the caller observes of a call: the identity of a constructed object,
a returned `bool`, a returned `int`, a plain return, or a fault. -/
inductive Obs
  | object (g : Nat)
  | bool (b : Bool)
  | value (v : Int)
  | unit
  | fault (e : Fault)
  deriving DecidableEq, Repr

/-- One call. A call that faults has no defined effect: the state is kept. -/
def step (w : World) : Op → World × Obs
  | Op.getNext start step => ((getNext w start step).1, Obs.object (getNext w start step).2)
  | Op.moveCtor oth =>
      match Generator.moveCtor w oth with
      | Except.ok (w1, g) => (w1, Obs.object g)
      | Except.error e => (w, Obs.fault e)
  | Op.moveAssign self oth =>
      match Generator.moveAssign w self oth with
      | Except.ok w1 => (w1, Obs.unit)
      | Except.error e => (w, Obs.fault e)
  | Op.next g =>
      match Generator.next w g with
      | Except.ok (w1, b) => (w1, Obs.bool b)
      | Except.error e => (w, Obs.fault e)
  | Op.getValue g =>
      match Generator.getValue w g with
      | Except.ok v => (w, Obs.value v)
      | Except.error e => (w, Obs.fault e)
  | Op.dtor g =>
      match Generator.dtor w g with
      | Except.ok w1 => (w1, Obs.unit)
      | Except.error e => (w, Obs.fault e)

/-- A sequence of calls: the final state and the observations in call order. -/
def run (w : World) : List Op → World × List Obs
  | [] => (w, [])
  | op :: ops => ((run (step w op).1 ops).1, (step w op).2 :: (run (step w op).1 ops).2)

/-- The two member functions a consumer drives a generator with. -/
inductive Call
  | next
  | getValue
  deriving DecidableEq, Repr

/-- The call `c` made on object `g`. -/
def Call.on (c : Call) (g : Nat) : Op :=
  match c with
  | Call.next => Op.next g
  | Call.getValue => Op.getValue g

/-- An interleaving of calls on two handles: each entry says which handle is
called (`false`: the first, `true`: the second) and with which member. -/
abbrev Script := List (Bool × Call)

/-- The calls of a script as operations on the objects `g1` and `g2`. -/
def Script.ops (script : Script) (g1 g2 : Nat) : List Op :=
  script.map (fun x => x.2.on (if x.1 then g2 else g1))

/-- The calls a script makes on one of the two handles, in order. -/
def Script.callsOf (script : Script) (b : Bool) : List Call :=
  (script.filter (fun x => x.1 == b)).map (fun x => x.2)

/-- Of the observations of a script, those of the calls on one handle. -/
def Script.obsOf (script : Script) (b : Bool) (obs : List Obs) : List Obs :=
  ((script.zip obs).filter (fun x => x.1.1 == b)).map (fun x => x.2)

/-- Exclusive ownership: no two distinct objects within their lifetime hold a
non-null handle to the same frame. -/
def Exclusive (w : World) : Prop :=
  ∀ i j a : Nat, w.objs[i]? = some (some (Generator.mk (some a))) →
    w.objs[j]? = some (some (Generator.mk (some a))) → i = j

/-- State invariant of programs: ownership is exclusive, every frame an object
refers to is live, every released frame is freed, and no frame was released
twice. -/
structure Inv (w : World) : Prop where
  exclusive : Exclusive w
  owned_live : ∀ i a : Nat, w.objs[i]? = some (some (Generator.mk (some a))) →
    ∃ f, w.frames[a]? = some (Cell.live f)
  released_freed : ∀ a, a ∈ w.released → w.frames[a]? = some Cell.freed
  released_nodup : w.released.Nodup

/-- What a call on a handle does to the frame the handle owns. -/
def Call.onFrame (c : Call) (f : Frame) : Frame × Obs :=
  match c with
  | Call.next =>
      match getNext.resume f with
      | Except.ok f1 => (f1, Obs.bool (!f1.done))
      | Except.error e => (f, Obs.fault e)
  | Call.getValue =>
      match f.promise.current_value with
      | some v => (f, Obs.value v)
      | none => (f, Obs.fault Fault.indeterminate)

/-- The observations of a sequence of calls on a handle, from the frame alone. -/
def runFrame (f : Frame) : List Call → List Obs
  | [] => []
  | c :: cs => (c.onFrame f).2 :: runFrame (c.onFrame f).1 cs

/-! ## Scenarios with moves -/

/-- The scenario `auto g = getNext(start, step);`, `k` calls `g.next()`,
`Generator<int> h(std::move(g));`, then one round `h.next(); h.getValue()`:
the value read from `h`. -/
def moveCtorThenRead (start step : Int) (k : Nat) : Except Fault (List Int) := do
  let c := getNext World.empty start step
  let wk ← advances c.2 k c.1
  let (w1, h) ← Generator.moveCtor wk c.2
  let (_, out) ← driveLoop h 1 w1
  pure out

/-- The scenario `auto g = getNext(start, step);`, `k` calls `g.next()`,
`g = std::move(g);`: the object `g` afterwards. -/
def selfMoveAssign (start step : Int) (k : Nat) : Except Fault (Option (Option Generator)) := do
  let c := getNext World.empty start step
  let wk ← advances c.2 k c.1
  let w1 ← Generator.moveAssign wk c.2 c.2
  pure w1.objs[c.2]?

/-- The scenario `auto g = getNext(start, step);`, `k` calls `g.next()`,
`Generator<int> h(std::move(g));`, then one call on the moved-from `g`: what
`g.next()` and `g.getValue()` return. -/
def useAfterMove (start step : Int) (k : Nat) :
    Except Fault (Except Fault Bool × Except Fault Int) := do
  let c := getNext World.empty start step
  let wk ← advances c.2 k c.1
  let (w1, _) ← Generator.moveCtor wk c.2
  pure ((Generator.next w1 c.2).map Prod.snd, Generator.getValue w1 c.2)

/-! ## `gcd` -/

/-- The function template
```
Integral auto gcd(Integral auto a, Integral auto b) {
  if (b == 0) return a;
  return gcd(b, a % b);
}
```
on integers. The built-in `%` is the remainder of the division that truncates
towards zero (`Int.tmod`). The first argument bounds the number of nested
calls; `none` means that the bound was reached before a `return a;`. For a
fixed-width type the language leaves `a % b` undefined for the one pair
(smallest value, `-1`); the remainder taken here is the mathematical one, `0`. -/
def gcd : Nat → Int → Int → Option Int
  | 0, _, _ => none
  | fuel + 1, a, b => if b = 0 then some a else gcd fuel b (a.tmod b)

/-! ## `range()` -/

/-- The lambda `auto even = [](int i) { return i % 2 == 0; };`. -/
def even (i : Int) : Bool := i.tmod 2 == 0

/-- The lambda `auto square = [](int i) { return i * i; };`, an `int`
multiplication. -/
def square (i : Int) : Int := wrapInt (i * i)

/-- The loop `for (int i : ints | filter(even) | views::transform(square))
cout << i << ' ';` over a vector `ints`: the view is walked once, front to
back; an element that fails `even` is skipped, an element that passes is handed
to `square` and the result is printed. Returns the numbers printed. -/
def pipeline : List Int → List Int
  | [] => []
  | i :: ints => if even i then square i :: pipeline ints else pipeline ints

/-- The function `void range()`, with `vector<int> ints{ 0, 1, 2, 3, 4, 5 };`. -/
def range : List Int := pipeline [0, 1, 2, 3, 4, 5]

/-- The description of the pipeline in words: the squares of the even
elements, in their original order. -/
def squaresOfEvens (xs : List Int) : List Int := (xs.filter even).map square

/-! ## `Student` and the three-way comparison -/

/-- The result type `std::strong_ordering` of `<=>` on `int`. -/
inductive strong_ordering
  | less
  | equal
  | greater
  deriving DecidableEq, Repr

/-- The class `Student`, with its one data member `int age;`. -/
structure Student where
  age : Int
  deriving DecidableEq, Repr

/-- The built-in `a <=> b` on `int`. -/
def intSpaceship (a b : Int) : strong_ordering :=
  if a = b then strong_ordering.equal
  else if a < b then strong_ordering.less
  else strong_ordering.greater

/-- The member `auto operator<=>(const Student&) const = default;`: the
members are compared in declaration order, and `age` is the only one. -/
def Student.spaceship (a b : Student) : strong_ordering := intSpaceship a.age b.age

/-- The operator `a == b`: the defaulted `operator<=>` declares a defaulted
`operator==`, which compares the members with `==`. -/
def Student.eq (a b : Student) : Bool := a.age == b.age

/-- The operator `a != b`, rewritten by the compiler to `!(a == b)`. -/
def Student.ne (a b : Student) : Bool := !(a.eq b)

/-- The operator `a < b`, rewritten by the compiler to `(a <=> b) < 0`. -/
def Student.lt (a b : Student) : Bool := a.spaceship b == strong_ordering.less

/-- The operator `a > b`, rewritten by the compiler to `(a <=> b) > 0`. -/
def Student.gt (a b : Student) : Bool := a.spaceship b == strong_ordering.greater

/-- The operator `a <= b`, rewritten by the compiler to `(a <=> b) <= 0`. -/
def Student.le (a b : Student) : Bool := a.spaceship b != strong_ordering.greater

/-- The operator `a >= b`, rewritten by the compiler to `(a <=> b) >= 0`. -/
def Student.ge (a b : Student) : Bool := a.spaceship b != strong_ordering.less

/-- The function `void spaceship_test()`: the text it prints after the
leading newline. -/
def spaceship_test : String :=
  if (Student.mk 18).gt (Student.mk 17) then "A is older!\n" else "A is younger!\n"

/-! ## Frames that no handle refers to -/

/-- The frame at address `a` is live and no `Generator` object within its
lifetime refers to it: it can no longer be resumed, read or destroyed. -/
def Unreachable (w : World) (a : Nat) : Prop :=
  (∃ f, w.frames[a]? = some (Cell.live f))
  ∧ ∀ i : Nat, w.objs[i]? ≠ some (some (Generator.mk (some a)))

/-! # Theorems -/

/-! ## Basic facts about `int` -/

theorem wrapInt_of_isInt {x : Int} (h : isInt x) : wrapInt x = x := by
  unfold isInt INT_MIN INT_MAX at h
  unfold wrapInt
  omega

theorem isInt_wrapInt (x : Int) : isInt (wrapInt x) := by
  unfold isInt INT_MIN INT_MAX wrapInt
  omega

theorem wrapInt_wrapInt_add (x d : Int) : wrapInt (wrapInt x + d) = wrapInt (x + d) := by
  unfold wrapInt
  omega

theorem resume_frameAfter (start step : Int) (hs : isInt start) (k : Nat) :
    getNext.resume (frameAfter start step k) = Except.ok (frameAfter start step (k + 1)) := by
  cases k with
  | zero =>
      simp [frameAfter, getNext.resume, promise_type.yield_value, wrapInt_of_isInt hs]
  | succ j =>
      simp only [frameAfter, getNext.resume, promise_type.yield_value, wrapInt_wrapInt_add]
      have : start + (j : Int) * step + step = start + ((j + 1 : Nat) : Int) * step := by
        push_cast; ring
      rw [this]

theorem frameAfter_done (start step : Int) (k : Nat) :
    (frameAfter start step k).done = false := by
  cases k <;> rfl

theorem getNext_eq (w : World) (start step : Int) :
    getNext w start step = (worldAfter w start step 0, w.objs.length) := rfl

theorem next_worldAfter (w : World) (start step : Int) (hs : isInt start) (k : Nat) :
    Generator.next (worldAfter w start step k) w.objs.length
      = Except.ok (worldAfter w start step (k + 1), true) := by
  simp [Generator.next, worldAfter, objAt, deref, coro_resume, coro_done,
    resume_frameAfter start step hs k, frameAfter_done, bind, Except.bind, pure, Except.pure]

theorem getValue_worldAfter (w : World) (start step : Int) (k : Nat) :
    Generator.getValue (worldAfter w start step (k + 1)) w.objs.length
      = Except.ok (wrapInt (start + k * step)) := by
  simp [Generator.getValue, worldAfter, objAt, deref, coro_promise, frameAfter,
    bind, Except.bind, pure, Except.pure]

theorem advances_worldAfter (w : World) (start step : Int) (hs : isInt start) (k j : Nat) :
    advances w.objs.length k (worldAfter w start step j)
      = Except.ok (worldAfter w start step (j + k)) := by
  induction k generalizing j with
  | zero => rfl
  | succ k ih =>
      simp only [advances, next_worldAfter w start step hs j, bind, Except.bind]
      rw [ih (j + 1)]
      congr 2
      omega

theorem driveLoop_worldAfter (w : World) (start step : Int) (hs : isInt start) (n j : Nat) :
    driveLoop w.objs.length n (worldAfter w start step j)
      = Except.ok (worldAfter w start step (j + n),
          (List.range n).map (fun i : Nat => wrapInt (start + ((j + i : Nat) : Int) * step))) := by
  induction n generalizing j with
  | zero => rfl
  | succ n ih =>
      simp only [driveLoop, next_worldAfter w start step hs j,
        getValue_worldAfter, bind, Except.bind, pure, Except.pure]
      rw [ih (j + 1)]
      have e1 : j + 1 + n = j + (n + 1) := by omega
      rw [e1, List.range_succ_eq_map, List.map_cons, List.map_map]
      have e2 : ((fun i : Nat => wrapInt (start + ((j + i : Nat) : Int) * step)) ∘ Nat.succ)
          = (fun i : Nat => wrapInt (start + ((j + 1 + i : Nat) : Int) * step)) := by
        funext i
        have : j + 1 + i = j + Nat.succ i := by omega
        simp only [Function.comp, this]
      rw [e2]
      rfl

/-- Every term of an arithmetic progression lies between its first and its
last term, so it is an `int` when both of these are. -/
theorem isInt_between (start step : Int) (m k : Nat) (hk : k ≤ m)
    (hs : isInt start) (hl : isInt (start + (m : Int) * step)) :
    isInt (start + (k : Int) * step) := by
  unfold isInt INT_MIN INT_MAX at *
  have hk0 : (0 : Int) ≤ k := Int.ofNat_nonneg k
  have hkm : (k : Int) ≤ m := by exact_mod_cast hk
  rcases le_total 0 step with h | h
  · have h1 : (0 : Int) ≤ (k : Int) * step := mul_nonneg hk0 h
    have h2 : (k : Int) * step ≤ (m : Int) * step := mul_le_mul_of_nonneg_right hkm h
    constructor <;> linarith [hs.1, hs.2, hl.1, hl.2]
  · have h1 : (k : Int) * step ≤ 0 := mul_nonpos_of_nonneg_of_nonpos hk0 h
    have h2 : (m : Int) * step ≤ (k : Int) * step := mul_le_mul_of_nonpos_right hkm h
    constructor <;> linarith [hs.1, hs.2, hl.1, hl.2]

/-! ## C1: the values read from `getNext(start, step)` -/

/-- C1 (as amended): for every `int` start, every step and every `n >= 1`, on
the handle returned by `getNext(start, step)` the `n` rounds `next()` then
`getValue()` all succeed and read, at round `k = 1..n`, the value
`start + (k-1)*step` reduced into the `int` range modulo `2^32`; when the last
term `start + (n-1)*step` is itself an `int`, the values read are exactly
`start, start+step, ..., start+(n-1)*step`, in that order. -/
theorem getNext_reads_progression (w : World) (start step : Int) (n : Nat)
    (hs : isInt start) (hn : 1 ≤ n) :
    (∃ w1, driveLoop (getNext w start step).2 n (getNext w start step).1
        = Except.ok (w1, (List.range n).map (fun k : Nat => wrapInt (start + (k : Int) * step))))
    ∧ (isInt (start + ((n : Int) - 1) * step) →
        ∃ w1, driveLoop (getNext w start step).2 n (getNext w start step).1
          = Except.ok (w1, (List.range n).map (fun k : Nat => start + (k : Int) * step))) := by
  have key := driveLoop_worldAfter w start step hs n 0
  simp only [Nat.zero_add] at key
  refine ⟨⟨worldAfter w start step n, key⟩, fun hl => ⟨worldAfter w start step n, ?_⟩⟩
  rw [getNext_eq, key]
  congr 2
  apply List.map_congr_left
  intro k hk
  have hk1 : k ≤ n - 1 := by
    have := List.mem_range.mp hk
    omega
  have hcast : ((n - 1 : Nat) : Int) = (n : Int) - 1 := by
    have : (1 : Nat) ≤ n := hn
    push_cast [this]
    rfl
  exact wrapInt_of_isInt (isInt_between start step (n - 1) k hk1 hs (by rw [hcast]; exact hl))

/-- Witness for C1: `getNext(7, 3)` driven for four rounds reads `7 10 13 16`. -/
theorem getNext_reads_progression_witness :
    isInt 7 ∧ 1 ≤ 4 ∧ isInt (7 + ((4 : Int) - 1) * 3) ∧
    ∃ w1, driveLoop (getNext World.empty 7 3).2 4 (getNext World.empty 7 3).1
        = Except.ok (w1, [7, 10, 13, 16]) :=
  ⟨by decide, by decide, by decide,
    (getNext_reads_progression World.empty 7 3 4 (by decide) (by decide)).2 (by decide)⟩

/-- C1 as stated fails: `getNext(2147483647, 1)` is called with two `int`
arguments, and its second round reads `-2147483648`, not
`2147483647 + 1 = 2147483648` (which no `int` can hold). -/
theorem getNext_reads_progression_overflow :
    isInt 2147483647 ∧ isInt 1 ∧
    Except.map Prod.snd
        (driveLoop (getNext World.empty 2147483647 1).2 2 (getNext World.empty 2147483647 1).1)
      = Except.ok [2147483647, -2147483648] ∧
    ¬ ∃ w1, driveLoop (getNext World.empty 2147483647 1).2 2 (getNext World.empty 2147483647 1).1
        = Except.ok (w1, (List.range 2).map (fun k : Nat => (2147483647 : Int) + (k : Int) * 1)) := by
  refine ⟨by decide, by decide, rfl, ?_⟩
  rintro ⟨w1, h⟩
  have h2 := congrArg (Except.map Prod.snd) h
  have h3 : Except.map Prod.snd
        (driveLoop (getNext World.empty 2147483647 1).2 2 (getNext World.empty 2147483647 1).1)
      = Except.ok [2147483647, -2147483648] := rfl
  rw [h3] at h2
  simp [Except.map, List.range_succ] at h2

/-! ## C3: `next()` never reports completion -/

/-- C3: for every `int` start and every step, after any number `k` of earlier
`next()` calls on the handle returned by `getNext(start, step)` (each of which
succeeds), one more `next()` succeeds and returns `true`, and `coro.done()` is
`false` both before and after it: the final suspend point is never reached. -/
theorem next_always_true (w : World) (start step : Int) (hs : isInt start) (k : Nat) :
    ∃ wk wk1,
      advances (getNext w start step).2 k (getNext w start step).1 = Except.ok wk
      ∧ Generator.next wk (getNext w start step).2 = Except.ok (wk1, true)
      ∧ coro_done wk w.frames.length = Except.ok false
      ∧ coro_done wk1 w.frames.length = Except.ok false := by
  refine ⟨worldAfter w start step k, worldAfter w start step (k + 1), ?_, ?_, ?_, ?_⟩
  · have h := advances_worldAfter w start step hs k 0
    simpa [getNext_eq] using h
  · exact next_worldAfter w start step hs k
  · simp [coro_done, worldAfter, frameAfter_done]
  · simp [coro_done, worldAfter, frameAfter_done]

/-- Witness for C3: the sixth `next()` on `getNext(100, -10)` returns `true`. -/
theorem next_always_true_witness :
    isInt 100 ∧
    ∃ wk wk1,
      advances (getNext World.empty 100 (-10)).2 5 (getNext World.empty 100 (-10)).1 = Except.ok wk
      ∧ Generator.next wk (getNext World.empty 100 (-10)).2 = Except.ok (wk1, true)
      ∧ coro_done wk World.empty.frames.length = Except.ok false
      ∧ coro_done wk1 World.empty.frames.length = Except.ok false :=
  ⟨by decide, next_always_true World.empty 100 (-10) (by decide) 5⟩

/-! ## C4: creation does not run the body -/

/-- C4: `getNext(start, step)` returns an object whose handle refers to a live
frame parked at the initial suspend point, with the parameters stored and
`current_value` never assigned; the frame is not done, reading the value at
this point is a fault (nothing has been produced), nothing was released, and
it is the first `next()` that makes `start` the value `getValue()` returns. -/
theorem getNext_created_suspended (w : World) (start step : Int) :
    Owns (getNext w start step).1 (getNext w start step).2 w.frames.length
        { promise := { current_value := none }, body := Suspend.initial start step }
    ∧ coro_done (getNext w start step).1 w.frames.length = Except.ok false
    ∧ Generator.getValue (getNext w start step).1 (getNext w start step).2
        = Except.error Fault.indeterminate
    ∧ (getNext w start step).1.released = w.released
    ∧ ∃ w1, Generator.next (getNext w start step).1 (getNext w start step).2 = Except.ok (w1, true)
        ∧ Generator.getValue w1 (getNext w start step).2 = Except.ok start
        ∧ Owns w1 (getNext w start step).2 w.frames.length
            { promise := { current_value := some start }, body := Suspend.yielded start step } := by
  refine ⟨?_, ?_, ?_, rfl, ?_⟩
  · simp [Owns, getNext]
  · simp [coro_done, getNext, Frame.done]
  · simp [Generator.getValue, getNext, objAt, deref, coro_promise, bind, Except.bind]
  · refine ⟨{ frames := w.frames ++ [Cell.live { promise := { current_value := some start },
                                                  body := Suspend.yielded start step }],
              objs := w.objs ++ [some { coro := some w.frames.length }],
              released := w.released }, ?_, ?_, ?_⟩
    · simp [Generator.next, getNext, objAt, deref, coro_resume, coro_done, getNext.resume,
        promise_type.yield_value, Frame.done, bind, Except.bind, pure, Except.pure]
    · simp [Generator.getValue, getNext, objAt, deref, coro_promise, bind, Except.bind,
        pure, Except.pure]
    · simp [Owns, getNext]

/-! ## C5, C6: the two loops of `coroutines()` -/

/-- C5: on `getNext(0, 1)`, created in any state, the 11 rounds of the driver
loop read `0 1 2 3 4 5 6 7 8 9 10`; this is the first line `coroutines()`
prints. -/
theorem coroutines_first_loop (w : World) :
    (∃ w1, driveLoop (getNext w 0 1).2 11 (getNext w 0 1).1
        = Except.ok (w1, [0, 1, 2, 3, 4, 5, 6, 7, 8, 9, 10]))
    ∧ Except.map (fun r => r.2.1) (coroutines World.empty)
        = Except.ok [0, 1, 2, 3, 4, 5, 6, 7, 8, 9, 10] := by
  refine ⟨⟨worldAfter w 0 1 11, ?_⟩, rfl⟩
  have h := driveLoop_worldAfter w 0 1 (by decide) 11 0
  rw [getNext_eq]
  exact h

/-- C6: on `getNext(100, -10)`, created in any state, the 21 rounds of the
driver loop read the 21 terms `100 90 80 ... -100`: the first is `100`, each
later term is 10 less than the one before it, and the last is `-100`; this is
the second line `coroutines()` prints. -/
theorem coroutines_second_loop (w : World) :
    ∃ out : List Int,
      (∃ w1, driveLoop (getNext w 100 (-10)).2 21 (getNext w 100 (-10)).1 = Except.ok (w1, out))
      ∧ Except.map (fun r => r.2.2) (coroutines World.empty) = Except.ok out
      ∧ out = [100, 90, 80, 70, 60, 50, 40, 30, 20, 10, 0,
               -10, -20, -30, -40, -50, -60, -70, -80, -90, -100]
      ∧ out.length = 21
      ∧ out.head? = some 100
      ∧ List.Chain' (fun a b : Int => b = a - 10) out
      ∧ out.getLast? = some (-100) := by
  refine ⟨[100, 90, 80, 70, 60, 50, 40, 30, 20, 10, 0,
           -10, -20, -30, -40, -50, -60, -70, -80, -90, -100],
    ⟨worldAfter w 100 (-10) 21, ?_⟩, rfl, rfl, rfl, rfl, by simp, rfl⟩
  have h := driveLoop_worldAfter w 100 (-10) (by decide) 21 0
  rw [getNext_eq]
  exact h

/-! ## Calls on a handle that owns a live frame -/

theorem step_on_owned {w : World} {g a : Nat} {f : Frame} (h : Owns w g a f) (c : Call) :
    (step w (c.on g)).2 = (c.onFrame f).2
    ∧ Owns (step w (c.on g)).1 g a (c.onFrame f).1
    ∧ (step w (c.on g)).1.objs = w.objs
    ∧ (step w (c.on g)).1.released = w.released
    ∧ ∀ b : Nat, b ≠ a → (step w (c.on g)).1.frames[b]? = w.frames[b]? := by
  obtain ⟨ho, hf⟩ := h
  have ha : a < w.frames.length := by
    rcases List.getElem?_eq_some_iff.mp hf with ⟨h1, _⟩
    exact h1
  cases c with
  | next =>
      cases hr : getNext.resume f with
      | error e =>
          simp [Call.on, Call.onFrame, step, Generator.next, objAt, deref, coro_resume,
            ho, hf, hr, bind, Except.bind, Owns]
      | ok f1 =>
          have hne : ∀ b : Nat, b ≠ a → (w.frames.set a (Cell.live f1))[b]? = w.frames[b]? :=
            fun b hb => List.getElem?_set_ne (Ne.symm hb)
          simp [Call.on, Call.onFrame, step, Generator.next, objAt, deref, coro_resume,
            coro_done, ho, hf, hr, ha, bind, Except.bind, pure, Except.pure, Owns]
          exact hne
  | getValue =>
      cases hv : f.promise.current_value with
      | none =>
          simp [Call.on, Call.onFrame, step, Generator.getValue, objAt, deref, coro_promise,
            ho, hf, hv, bind, Except.bind, Owns]
      | some v =>
          simp [Call.on, Call.onFrame, step, Generator.getValue, objAt, deref, coro_promise,
            ho, hf, hv, bind, Except.bind, pure, Except.pure, Owns]

theorem owns_of_step_other {w : World} {g a g2 a2 : Nat} {f f2 : Frame}
    (h : Owns w g a f) (h2 : Owns w g2 a2 f2) (hne : a2 ≠ a) (c : Call) :
    Owns (step w (c.on g)).1 g2 a2 f2 := by
  obtain ⟨_, _, hobjs, _, hfr⟩ := step_on_owned h c
  exact ⟨by rw [hobjs]; exact h2.1, by rw [hfr a2 hne]; exact h2.2⟩

theorem run_alone {w : World} {g a : Nat} {f : Frame} (h : Owns w g a f) (cs : List Call) :
    (run w (cs.map (fun c => c.on g))).2 = runFrame f cs := by
  induction cs generalizing w f with
  | nil => rfl
  | cons c cs ih =>
      obtain ⟨hobs, hown, _⟩ := step_on_owned h c
      simp only [List.map_cons, run, runFrame, hobs]
      rw [ih hown]

theorem onFrame_not_final {f : Frame} (c : Call) (h : f.body ≠ Suspend.final) :
    (c.onFrame f).1.body ≠ Suspend.final := by
  cases c with
  | next =>
      rcases f with ⟨p, b⟩
      cases b <;> simp_all [Call.onFrame, getNext.resume]
  | getValue =>
      simp only [Call.onFrame]
      split <;> exact h

theorem next_of_resume {w : World} {g a : Nat} {f f1 : Frame} (h : Owns w g a f)
    (hr : getNext.resume f = Except.ok f1) :
    Generator.next w g
      = Except.ok ({ w with frames := w.frames.set a (Cell.live f1) }, !f1.done) := by
  obtain ⟨ho, hf⟩ := h
  have ha : a < w.frames.length := by
    rcases List.getElem?_eq_some_iff.mp hf with ⟨h1, _⟩
    exact h1
  simp [Generator.next, objAt, deref, coro_resume, coro_done, ho, hf, hr, ha,
    bind, Except.bind, pure, Except.pure]

theorem resume_of_not_final {f : Frame} (hb : f.body ≠ Suspend.final) :
    ∃ f1, getNext.resume f = Except.ok f1 ∧ f1.done = false ∧ f1.body ≠ Suspend.final := by
  rcases f with ⟨p, b⟩
  cases b with
  | final => exact absurd rfl hb
  | initial s d => exact ⟨_, rfl, rfl, by simp⟩
  | yielded v d => exact ⟨_, rfl, rfl, by simp⟩

theorem next_of_not_final {w : World} {g a : Nat} {f : Frame} (h : Owns w g a f)
    (hb : f.body ≠ Suspend.final) :
    ∃ w1 f1, Generator.next w g = Except.ok (w1, true) ∧ Owns w1 g a f1
      ∧ w1.objs = w.objs ∧ ∀ b : Nat, b ≠ a → w1.frames[b]? = w.frames[b]? := by
  obtain ⟨f1, hr, hd, _⟩ := resume_of_not_final hb
  have ha : a < w.frames.length := by
    rcases List.getElem?_eq_some_iff.mp h.2 with ⟨h1, _⟩
    exact h1
  refine ⟨{ w with frames := w.frames.set a (Cell.live f1) }, f1, ?_, ?_, rfl, ?_⟩
  · rw [next_of_resume h hr, hd]
    rfl
  · exact ⟨h.1, by simp [ha]⟩
  · intro b hb2
    exact List.getElem?_set_ne (Ne.symm hb2)

theorem run_interleaved {w : World} {g1 a1 g2 a2 : Nat} {f1 f2 : Frame}
    (h1 : Owns w g1 a1 f1) (h2 : Owns w g2 a2 f2) (hne : a1 ≠ a2)
    (hb1 : f1.body ≠ Suspend.final) (hb2 : f2.body ≠ Suspend.final) (script : Script) :
    script.obsOf false (run w (script.ops g1 g2)).2 = runFrame f1 (script.callsOf false)
    ∧ script.obsOf true (run w (script.ops g1 g2)).2 = runFrame f2 (script.callsOf true)
    ∧ ∃ e1 e2, Owns (run w (script.ops g1 g2)).1 g1 a1 e1
        ∧ Owns (run w (script.ops g1 g2)).1 g2 a2 e2
        ∧ e1.body ≠ Suspend.final ∧ e2.body ≠ Suspend.final := by
  induction script generalizing w f1 f2 with
  | nil => exact ⟨rfl, rfl, f1, f2, h1, h2, hb1, hb2⟩
  | cons x rest ih =>
      rcases x with ⟨b, c⟩
      cases b with
      | false =>
          obtain ⟨hobs, hown, _⟩ := step_on_owned h1 c
          have hoth := owns_of_step_other h1 h2 (Ne.symm hne) c
          obtain ⟨i1, i2, i3⟩ := ih hown hoth (onFrame_not_final c hb1) hb2
          simp only [Script.ops, List.map_cons, Bool.false_eq_true, if_false, run] at *
          refine ⟨?_, ?_, i3⟩
          · simp only [Script.obsOf, Script.callsOf, List.zip_cons_cons, List.filter_cons,
              beq_self_eq_true, if_true, List.map_cons, runFrame, hobs] at *
            rw [i1]
          · simp only [Script.obsOf, Script.callsOf, List.zip_cons_cons, List.filter_cons] at *
            simpa using i2
      | true =>
          obtain ⟨hobs, hown, _⟩ := step_on_owned h2 c
          have hoth := owns_of_step_other h2 h1 hne c
          obtain ⟨i1, i2, i3⟩ := ih hoth hown hb1 (onFrame_not_final c hb2)
          simp only [Script.ops, List.map_cons, if_true, run] at *
          refine ⟨?_, ?_, i3⟩
          · simp only [Script.obsOf, Script.callsOf, List.zip_cons_cons, List.filter_cons] at *
            simpa using i1
          · simp only [Script.obsOf, Script.callsOf, List.zip_cons_cons, List.filter_cons,
              beq_self_eq_true, if_true, List.map_cons, runFrame, hobs] at *
            rw [i2]

theorem getElem?_append_pair_fst {α : Type} (l : List α) (x y : α) :
    (l ++ [x, y])[l.length]? = some x := by
  rw [List.getElem?_append_right (Nat.le_refl _)]
  simp

theorem getElem?_append_pair_snd {α : Type} (l : List α) (x y : α) :
    (l ++ [x, y])[l.length + 1]? = some y := by
  rw [List.getElem?_append_right (Nat.le_succ _)]
  simp

/-! ## C2: two handles do not observe each other -/

/-- C2: let `g1 = getNext(s1, d1)` and `g2 = getNext(s2, d2)` be created one
after the other in any state. For every interleaving of `next()` and
`getValue()` calls on the two handles, what the calls on `g1` return is what
the same calls return when `g1` is driven alone (no second handle created),
and what the calls on `g2` return is what they return on a `getNext(s2, d2)`
created and driven alone. In the state after the interleaving both handles
still own their own live frame, and a `next()` on either one succeeds and
leaves the frame of the other (accumulator, current value, suspension point)
as it was. -/
theorem interleaving_independent (w : World) (s1 d1 s2 d2 : Int) (script : Script) :
    script.obsOf false
        (run (getNext (getNext w s1 d1).1 s2 d2).1
          (script.ops (getNext w s1 d1).2 (getNext (getNext w s1 d1).1 s2 d2).2)).2
      = (run (getNext w s1 d1).1
          ((script.callsOf false).map (fun c => c.on (getNext w s1 d1).2))).2
    ∧ script.obsOf true
        (run (getNext (getNext w s1 d1).1 s2 d2).1
          (script.ops (getNext w s1 d1).2 (getNext (getNext w s1 d1).1 s2 d2).2)).2
      = (run (getNext w s2 d2).1
          ((script.callsOf true).map (fun c => c.on (getNext w s2 d2).2))).2
    ∧ ∃ f1 f2,
        Owns (run (getNext (getNext w s1 d1).1 s2 d2).1
          (script.ops (getNext w s1 d1).2 (getNext (getNext w s1 d1).1 s2 d2).2)).1
          (getNext w s1 d1).2 w.frames.length f1
        ∧ Owns (run (getNext (getNext w s1 d1).1 s2 d2).1
          (script.ops (getNext w s1 d1).2 (getNext (getNext w s1 d1).1 s2 d2).2)).1
          (getNext (getNext w s1 d1).1 s2 d2).2 (w.frames.length + 1) f2
        ∧ (∃ w1, Generator.next (run (getNext (getNext w s1 d1).1 s2 d2).1
              (script.ops (getNext w s1 d1).2 (getNext (getNext w s1 d1).1 s2 d2).2)).1
              (getNext w s1 d1).2 = Except.ok (w1, true)
            ∧ Owns w1 (getNext (getNext w s1 d1).1 s2 d2).2 (w.frames.length + 1) f2)
        ∧ (∃ w1, Generator.next (run (getNext (getNext w s1 d1).1 s2 d2).1
              (script.ops (getNext w s1 d1).2 (getNext (getNext w s1 d1).1 s2 d2).2)).1
              (getNext (getNext w s1 d1).1 s2 d2).2 = Except.ok (w1, true)
            ∧ Owns w1 (getNext w s1 d1).2 w.frames.length f1) := by
  have o1 : Owns (getNext (getNext w s1 d1).1 s2 d2).1 (getNext w s1 d1).2 w.frames.length
      { promise := { current_value := none }, body := Suspend.initial s1 d1 } := by
    simp only [Owns, getNext, List.append_assoc, List.singleton_append]
    exact ⟨getElem?_append_pair_fst _ _ _, getElem?_append_pair_fst _ _ _⟩
  have o2 : Owns (getNext (getNext w s1 d1).1 s2 d2).1 (getNext (getNext w s1 d1).1 s2 d2).2
      (w.frames.length + 1)
      { promise := { current_value := none }, body := Suspend.initial s2 d2 } := by
    simp only [Owns, getNext, List.append_assoc, List.singleton_append, List.length_append,
      List.length_singleton]
    exact ⟨getElem?_append_pair_snd _ _ _, getElem?_append_pair_snd _ _ _⟩
  have p1 : Owns (getNext w s1 d1).1 (getNext w s1 d1).2 w.frames.length
      { promise := { current_value := none }, body := Suspend.initial s1 d1 } := by
    simp [Owns, getNext]
  have p2 : Owns (getNext w s2 d2).1 (getNext w s2 d2).2 w.frames.length
      { promise := { current_value := none }, body := Suspend.initial s2 d2 } := by
    simp [Owns, getNext]
  have hne : w.frames.length ≠ w.frames.length + 1 := by omega
  obtain ⟨r1, r2, e1, e2, q1, q2, b1, b2⟩ :=
    run_interleaved o1 o2 hne (by simp) (by simp) script
  refine ⟨?_, ?_, e1, e2, q1, q2, ?_, ?_⟩
  · rw [r1, run_alone p1]
  · rw [r2, run_alone p2]
  · obtain ⟨w1, _, hn, _, hobjs, hfr⟩ := next_of_not_final q1 b1
    exact ⟨w1, hn, by rw [hobjs]; exact q2.1, by rw [hfr _ (Ne.symm hne)]; exact q2.2⟩
  · obtain ⟨w1, _, hn, _, hobjs, hfr⟩ := next_of_not_final q2 b2
    exact ⟨w1, hn, by rw [hobjs]; exact q1.1, by rw [hfr _ hne]; exact q1.2⟩

/-! ## What each successful call does to the state -/

theorem objAt_eq_ok {w : World} {g : Nat} {gen : Generator} :
    objAt w g = Except.ok gen ↔ w.objs[g]? = some (some gen) := by
  unfold objAt
  split
  · rename_i x h
    rw [h]
    simp
  · rename_i h
    constructor
    · intro h1
      cases h1
    · intro h1
      exact absurd h1 (h gen)

theorem objAt_of_lookup {w : World} {g : Nat} {gen : Generator}
    (h : w.objs[g]? = some (some gen)) : objAt w g = Except.ok gen :=
  objAt_eq_ok.mpr h

theorem objAt_cases (w : World) (g : Nat) :
    (∃ gen, w.objs[g]? = some (some gen) ∧ objAt w g = Except.ok gen)
    ∨ objAt w g = Except.error Fault.noObject := by
  unfold objAt
  split
  · rename_i x h
    exact Or.inl ⟨x, h, rfl⟩
  · exact Or.inr rfl

theorem next_ok_inv {w w1 : World} {g : Nat} {b : Bool}
    (h : Generator.next w g = Except.ok (w1, b)) :
    ∃ a f f1, Owns w g a f ∧ getNext.resume f = Except.ok f1
      ∧ w1 = { w with frames := w.frames.set a (Cell.live f1) } := by
  rcases objAt_cases w g with ⟨gen, hl, ho⟩ | ho
  · rcases gen with ⟨c⟩
    cases c with
    | none => simp [Generator.next, ho, deref, bind, Except.bind] at h
    | some a =>
        cases hf : w.frames[a]? with
        | none => simp [Generator.next, ho, deref, coro_resume, hf, bind, Except.bind] at h
        | some cell =>
            cases cell with
            | freed => simp [Generator.next, ho, deref, coro_resume, hf, bind, Except.bind] at h
            | live f =>
                cases hr : getNext.resume f with
                | error e =>
                    simp [Generator.next, ho, deref, coro_resume, hf, hr, bind, Except.bind] at h
                | ok f1 =>
                    rw [next_of_resume ⟨hl, hf⟩ hr] at h
                    simp only [Except.ok.injEq, Prod.mk.injEq] at h
                    exact ⟨a, f, f1, ⟨hl, hf⟩, hr, h.1.symm⟩
  · simp [Generator.next, ho, bind, Except.bind] at h

theorem moveCtor_ok_inv {w w1 : World} {oth g : Nat}
    (h : Generator.moveCtor w oth = Except.ok (w1, g)) :
    ∃ o, w.objs[oth]? = some (some o) ∧ g = w.objs.length
      ∧ w1 = { w with objs := (w.objs ++ [some (Generator.mk o.coro)]).set oth
                                (some (Generator.mk none)) } := by
  rcases objAt_cases w oth with ⟨o, hl, ho⟩ | ho
  · simp only [Generator.moveCtor, ho, bind, Except.bind, pure, Except.pure,
      Except.ok.injEq, Prod.mk.injEq] at h
    exact ⟨o, hl, h.2.symm, h.1.symm⟩
  · simp [Generator.moveCtor, ho, bind, Except.bind] at h

theorem moveAssign_ok_inv {w w1 : World} {self oth : Nat}
    (h : Generator.moveAssign w self oth = Except.ok w1) :
    ∃ s o, w.objs[self]? = some (some s) ∧ w.objs[oth]? = some (some o)
      ∧ w1 = { w with objs := (w.objs.set self (some (Generator.mk o.coro))).set oth
                                (some (Generator.mk none)) } := by
  rcases objAt_cases w self with ⟨s, hls, hs⟩ | hs
  · rcases objAt_cases w oth with ⟨o, hlo, ho⟩ | ho
    · simp only [Generator.moveAssign, hs, ho, bind, Except.bind, pure, Except.pure,
        Except.ok.injEq] at h
      exact ⟨s, o, hls, hlo, h.symm⟩
    · simp [Generator.moveAssign, hs, ho, bind, Except.bind] at h
  · simp [Generator.moveAssign, hs, bind, Except.bind] at h

theorem dtor_ok_inv {w w1 : World} {g : Nat} (h : Generator.dtor w g = Except.ok w1) :
    (w.objs[g]? = some (some (Generator.mk none)) ∧ w1 = { w with objs := w.objs.set g none })
    ∨ ∃ a f, Owns w g a f
        ∧ w1 = { frames := w.frames.set a Cell.freed, objs := w.objs.set g none,
                 released := w.released ++ [a] } := by
  rcases objAt_cases w g with ⟨gen, hl, ho⟩ | ho
  · rcases gen with ⟨c⟩
    cases c with
    | none =>
        simp only [Generator.dtor, ho, bind, Except.bind, pure, Except.pure,
          Except.ok.injEq] at h
        exact Or.inl ⟨hl, h.symm⟩
    | some a =>
        cases hf : w.frames[a]? with
        | none => simp [Generator.dtor, ho, coro_destroy, hf, bind, Except.bind] at h
        | some cell =>
            cases cell with
            | freed => simp [Generator.dtor, ho, coro_destroy, hf, bind, Except.bind] at h
            | live f =>
                simp only [Generator.dtor, ho, coro_destroy, hf, bind, Except.bind, pure,
                  Except.pure, Except.ok.injEq] at h
                exact Or.inr ⟨a, f, ⟨hl, hf⟩, h.symm⟩
  · simp [Generator.dtor, ho, bind, Except.bind] at h

/-! ## The state invariant is kept by every call -/

theorem getElem?_concat_eq_some {α : Type} {l : List α} {x y : α} {i : Nat}
    (h : (l ++ [x])[i]? = some y) : l[i]? = some y ∨ (i = l.length ∧ x = y) := by
  rw [List.getElem?_append] at h
  split at h
  · exact Or.inl h
  · rename_i hlt
    rcases Nat.eq_or_lt_of_le (Nat.le_of_not_lt hlt) with he | hgt
    · subst he
      simp at h
      exact Or.inr ⟨rfl, h⟩
    · have : ([x] : List α)[i - l.length]? = none := by
        apply List.getElem?_eq_none
        simp
        omega
      rw [this] at h
      cases h

theorem getElem?_append_of_eq_some {α : Type} {l : List α} (l2 : List α) {y : α} {i : Nat}
    (h : l[i]? = some y) : (l ++ l2)[i]? = some y := by
  have hi : i < l.length := by
    rcases List.getElem?_eq_some_iff.mp h with ⟨h1, _⟩
    exact h1
  rw [List.getElem?_append_left hi]
  exact h

theorem lt_of_getElem?_eq_some {α : Type} {l : List α} {y : α} {i : Nat}
    (h : l[i]? = some y) : i < l.length := by
  rcases List.getElem?_eq_some_iff.mp h with ⟨h1, _⟩
  exact h1

theorem getElem?_set_eq_some {α : Type} {l : List α} {x y : α} {i j : Nat}
    (h : (l.set i x)[j]? = some y) : (i = j ∧ x = y) ∨ (i ≠ j ∧ l[j]? = some y) := by
  rw [List.getElem?_set] at h
  split at h
  · rename_i he
    split at h
    · exact Or.inl ⟨he, by simpa using h⟩
    · cases h
  · rename_i hne
    exact Or.inr ⟨hne, h⟩

theorem inv_empty : Inv World.empty := by
  refine ⟨?_, ?_, ?_, ?_⟩
  · intro i j a h
    simp [World.empty] at h
  · intro i a h
    simp [World.empty] at h
  · intro a h
    simp [World.empty] at h
  · simp [World.empty]

theorem inv_getNext {w : World} (hw : Inv w) (start step : Int) :
    Inv (getNext w start step).1 := by
  refine ⟨?_, ?_, ?_, hw.released_nodup⟩
  · intro i j a hi hj
    simp only [getNext] at hi hj
    rcases getElem?_concat_eq_some hi with hi | ⟨hi, hia⟩
    · rcases getElem?_concat_eq_some hj with hj | ⟨hj, hja⟩
      · exact hw.exclusive i j a hi hj
      · obtain ⟨f, hf⟩ := hw.owned_live i a hi
        have := lt_of_getElem?_eq_some hf
        simp at hja
        omega
    · rcases getElem?_concat_eq_some hj with hj | ⟨hj, hja⟩
      · obtain ⟨f, hf⟩ := hw.owned_live j a hj
        have := lt_of_getElem?_eq_some hf
        simp at hia
        omega
      · omega
  · intro i a hi
    simp only [getNext] at hi ⊢
    rcases getElem?_concat_eq_some hi with hi | ⟨_, hia⟩
    · obtain ⟨f, hf⟩ := hw.owned_live i a hi
      exact ⟨f, getElem?_append_of_eq_some _ hf⟩
    · simp at hia
      subst hia
      exact ⟨_, List.getElem?_concat_length _ _⟩
  · intro a ha
    exact getElem?_append_of_eq_some _ (hw.released_freed a ha)

theorem inv_next {w w1 : World} {g : Nat} {b : Bool} (hw : Inv w)
    (h : Generator.next w g = Except.ok (w1, b)) : Inv w1 := by
  obtain ⟨a, f, f1, ho, _, rfl⟩ := next_ok_inv h
  have ha := lt_of_getElem?_eq_some ho.2
  refine ⟨hw.exclusive, ?_, ?_, hw.released_nodup⟩
  · intro i c hi
    obtain ⟨f2, hf2⟩ := hw.owned_live i c hi
    by_cases hc : a = c
    · subst hc
      exact ⟨f1, List.getElem?_set_self ha⟩
    · exact ⟨f2, by simp only []; rw [List.getElem?_set_ne hc]; exact hf2⟩
  · intro r hr
    have hfr := hw.released_freed r hr
    have hne : a ≠ r := by
      intro he
      subst he
      rw [ho.2] at hfr
      cases hfr
    simp only []
    rw [List.getElem?_set_ne hne]
    exact hfr

theorem inv_moveCtor {w w1 : World} {oth g : Nat} (hw : Inv w)
    (h : Generator.moveCtor w oth = Except.ok (w1, g)) : Inv w1 := by
  obtain ⟨o, hoth, _, rfl⟩ := moveCtor_ok_inv h
  rcases o with ⟨oc⟩
  have key : ∀ i a : Nat,
      ((w.objs ++ [some (Generator.mk oc)]).set oth (some (Generator.mk none)))[i]?
        = some (some (Generator.mk (some a))) →
      oth ≠ i ∧ (w.objs[i]? = some (some (Generator.mk (some a)))
        ∨ (i = w.objs.length ∧ oc = some a)) := by
    intro i a hi
    rcases getElem?_set_eq_some hi with ⟨_, hx⟩ | ⟨hne, hx⟩
    · simp at hx
    · refine ⟨hne, ?_⟩
      rcases getElem?_concat_eq_some hx with hx | ⟨hx, hxa⟩
      · exact Or.inl hx
      · exact Or.inr ⟨hx, by simpa using hxa⟩
  refine ⟨?_, ?_, hw.released_freed, hw.released_nodup⟩
  · intro i j a hi hj
    obtain ⟨hni, ki⟩ := key i a hi
    obtain ⟨hnj, kj⟩ := key j a hj
    clear hi hj key
    rcases ki with ki | ⟨ki, hia⟩
    · rcases kj with kj | ⟨kj, hja⟩
      · exact hw.exclusive i j a ki kj
      · subst hja
        exact absurd (hw.exclusive oth i a hoth ki) hni
    · rcases kj with kj | ⟨kj, hja⟩
      · subst hia
        exact absurd (hw.exclusive oth j a hoth kj) hnj
      · omega
  · intro i a hi
    obtain ⟨_, ki⟩ := key i a hi
    clear hi key
    rcases ki with ki | ⟨_, hia⟩
    · exact hw.owned_live i a ki
    · subst hia
      exact hw.owned_live oth a hoth

theorem inv_moveAssign {w w1 : World} {self oth : Nat} (hw : Inv w)
    (h : Generator.moveAssign w self oth = Except.ok w1) : Inv w1 := by
  obtain ⟨s, o, _, hoth, rfl⟩ := moveAssign_ok_inv h
  rcases o with ⟨oc⟩
  have key : ∀ i a : Nat,
      ((w.objs.set self (some (Generator.mk oc))).set oth (some (Generator.mk none)))[i]?
        = some (some (Generator.mk (some a))) →
      oth ≠ i ∧ ((self = i ∧ oc = some a)
        ∨ (self ≠ i ∧ w.objs[i]? = some (some (Generator.mk (some a))))) := by
    intro i a hi
    rcases getElem?_set_eq_some hi with ⟨_, hx⟩ | ⟨hne, hx⟩
    · simp at hx
    · refine ⟨hne, ?_⟩
      rcases getElem?_set_eq_some hx with ⟨hx, hxa⟩ | ⟨hx, hxa⟩
      · exact Or.inl ⟨hx, by simpa using hxa⟩
      · exact Or.inr ⟨hx, hxa⟩
  refine ⟨?_, ?_, hw.released_freed, hw.released_nodup⟩
  · intro i j a hi hj
    obtain ⟨hni, ki⟩ := key i a hi
    obtain ⟨hnj, kj⟩ := key j a hj
    clear hi hj key
    rcases ki with ⟨ki, hia⟩ | ⟨_, ki⟩
    · rcases kj with ⟨kj, _⟩ | ⟨_, kj⟩
      · omega
      · subst hia
        exact absurd (hw.exclusive oth j a hoth kj) hnj
    · rcases kj with ⟨_, hja⟩ | ⟨_, kj⟩
      · subst hja
        exact absurd (hw.exclusive oth i a hoth ki) hni
      · exact hw.exclusive i j a ki kj
  · intro i a hi
    obtain ⟨_, ki⟩ := key i a hi
    clear hi key
    rcases ki with ⟨_, hia⟩ | ⟨_, ki⟩
    · subst hia
      exact hw.owned_live oth a hoth
    · exact hw.owned_live i a ki

theorem inv_dtor {w w1 : World} {g : Nat} (hw : Inv w)
    (h : Generator.dtor w g = Except.ok w1) : Inv w1 := by
  have key : ∀ (i : Nat) (x : Generator),
      (w.objs.set g none)[i]? = some (some x) → g ≠ i ∧ w.objs[i]? = some (some x) := by
    intro i x hi
    rcases getElem?_set_eq_some hi with ⟨_, hx⟩ | hx
    · cases hx
    · exact hx
  rcases dtor_ok_inv h with ⟨_, rfl⟩ | ⟨a, f, ho, rfl⟩
  · refine ⟨?_, ?_, hw.released_freed, hw.released_nodup⟩
    · intro i j a hi hj
      exact hw.exclusive i j a (key i _ hi).2 (key j _ hj).2
    · intro i a hi
      exact hw.owned_live i a (key i _ hi).2
  · have ha := lt_of_getElem?_eq_some ho.2
    refine ⟨?_, ?_, ?_, ?_⟩
    · intro i j c hi hj
      exact hw.exclusive i j c (key i _ hi).2 (key j _ hj).2
    · intro i c hi
      obtain ⟨hne, hi⟩ := key i _ hi
      obtain ⟨f2, hf2⟩ := hw.owned_live i c hi
      have hac : a ≠ c := by
        intro he
        subst he
        exact hne (hw.exclusive g i a ho.1 hi)
      exact ⟨f2, by simp only []; rw [List.getElem?_set_ne hac]; exact hf2⟩
    · intro r hr
      simp only [List.mem_append, List.mem_singleton] at hr
      by_cases hc : a = r
      · subst hc
        exact List.getElem?_set_self ha
      · rcases hr with hr | hr
        · simp only []
          rw [List.getElem?_set_ne hc]
          exact hw.released_freed r hr
        · exact absurd hr.symm hc
    · simp only []
      rw [List.nodup_append]
      refine ⟨hw.released_nodup, List.nodup_singleton a, ?_⟩
      intro x hx hx2
      simp only [List.mem_singleton] at hx2
      subst hx2
      have := hw.released_freed x hx
      rw [ho.2] at this
      cases this

theorem inv_step {w : World} (hw : Inv w) (op : Op) : Inv (step w op).1 := by
  cases op with
  | getNext start st => exact inv_getNext hw start st
  | moveCtor oth =>
      simp only [step]
      cases h : Generator.moveCtor w oth with
      | error e => exact hw
      | ok r => exact inv_moveCtor hw (show Generator.moveCtor w oth = Except.ok (r.1, r.2) from h)
  | moveAssign self oth =>
      simp only [step]
      cases h : Generator.moveAssign w self oth with
      | error e => exact hw
      | ok r => exact inv_moveAssign hw h
  | next g =>
      simp only [step]
      cases h : Generator.next w g with
      | error e => exact hw
      | ok r => exact inv_next hw (show Generator.next w g = Except.ok (r.1, r.2) from h)
  | getValue g =>
      simp only [step]
      cases h : Generator.getValue w g with
      | error e => exact hw
      | ok r => exact hw
  | dtor g =>
      simp only [step]
      cases h : Generator.dtor w g with
      | error e => exact hw
      | ok r => exact inv_dtor hw h

theorem inv_run {w : World} (hw : Inv w) (ops : List Op) : Inv (run w ops).1 := by
  induction ops generalizing w with
  | nil => exact hw
  | cons op ops ih => exact ih (inv_step hw op)

/-! ## C10: exclusive ownership -/

/-- C10: in every state reached from the empty state by a sequence of
`getNext`, move-construction, move-assignment, `next()`, `getValue()` and
destructor calls, no two distinct `Generator` objects hold a non-null handle to
the same coroutine frame. -/
theorem exclusive_ownership (ops : List Op) : Exclusive (run World.empty ops).1 :=
  (inv_run inv_empty ops).exclusive

/-! ## Moves and destruction, call by call -/

theorem getValue_of_owns {w : World} {g a : Nat} {f : Frame} {v : Int} (h : Owns w g a f)
    (hv : f.promise.current_value = some v) : Generator.getValue w g = Except.ok v := by
  simp [Generator.getValue, objAt, deref, coro_promise, h.1, h.2, hv, bind, Except.bind,
    pure, Except.pure]

theorem owns_after_resume {w : World} {g a : Nat} {f : Frame} (h : Owns w g a f) (f1 : Frame) :
    Owns { w with frames := w.frames.set a (Cell.live f1) } g a f1 :=
  ⟨h.1, List.getElem?_set_self (lt_of_getElem?_eq_some h.2)⟩

theorem moveCtor_of_lookup {w : World} {g : Nat} {c : Option Nat}
    (h : w.objs[g]? = some (some (Generator.mk c))) :
    Generator.moveCtor w g
      = Except.ok ({ w with objs := (w.objs ++ [some (Generator.mk c)]).set g
                                      (some (Generator.mk none)) }, w.objs.length) := by
  simp [Generator.moveCtor, objAt_of_lookup h, bind, Except.bind, pure, Except.pure]

theorem moveCtor_source {w : World} {g : Nat} {c : Option Nat}
    (h : w.objs[g]? = some (some (Generator.mk c))) :
    ((w.objs ++ [some (Generator.mk c)]).set g (some (Generator.mk none)))[g]?
      = some (some (Generator.mk none)) := by
  apply List.getElem?_set_self
  have := lt_of_getElem?_eq_some h
  simp
  omega

theorem moveCtor_destination {w : World} {g : Nat} {c : Option Nat}
    (h : w.objs[g]? = some (some (Generator.mk c))) :
    ((w.objs ++ [some (Generator.mk c)]).set g (some (Generator.mk none)))[w.objs.length]?
      = some (some (Generator.mk c)) := by
  have hlt := lt_of_getElem?_eq_some h
  rw [List.getElem?_set_ne (Nat.ne_of_lt hlt)]
  exact List.getElem?_concat_length _ _

theorem moveAssign_of_lookup {w : World} {d g : Nat} {x : Generator} {c : Option Nat}
    (hd : w.objs[d]? = some (some x)) (h : w.objs[g]? = some (some (Generator.mk c))) :
    Generator.moveAssign w d g
      = Except.ok { w with objs := (w.objs.set d (some (Generator.mk c))).set g
                                     (some (Generator.mk none)) } := by
  simp [Generator.moveAssign, objAt_of_lookup h, objAt_of_lookup hd, bind, Except.bind,
    pure, Except.pure]

theorem moveAssign_source {w : World} {d g : Nat} {c : Option Nat}
    (h : w.objs[g]? = some (some (Generator.mk c))) :
    ((w.objs.set d (some (Generator.mk c))).set g (some (Generator.mk none)))[g]?
      = some (some (Generator.mk none)) := by
  apply List.getElem?_set_self
  have := lt_of_getElem?_eq_some h
  simpa using this

theorem moveAssign_destination {w : World} {d g : Nat} {x : Generator} {c : Option Nat}
    (hd : w.objs[d]? = some (some x)) (hne : d ≠ g) :
    ((w.objs.set d (some (Generator.mk c))).set g (some (Generator.mk none)))[d]?
      = some (some (Generator.mk c)) := by
  rw [List.getElem?_set_ne (Ne.symm hne)]
  exact List.getElem?_set_self (lt_of_getElem?_eq_some hd)

theorem dtor_of_null {w : World} {g : Nat}
    (h : w.objs[g]? = some (some (Generator.mk none))) :
    Generator.dtor w g = Except.ok { w with objs := w.objs.set g none } := by
  simp [Generator.dtor, objAt_of_lookup h, bind, Except.bind, pure, Except.pure]

theorem dtor_of_owns {w : World} {g a : Nat} {f : Frame} (h : Owns w g a f) :
    Generator.dtor w g
      = Except.ok { frames := w.frames.set a Cell.freed, objs := w.objs.set g none,
                    released := w.released ++ [a] } := by
  simp [Generator.dtor, objAt_of_lookup h.1, coro_destroy, h.2, bind, Except.bind, pure,
    Except.pure]

theorem driveLoop_one_of_owns {w : World} {h a : Nat} (start step : Int) (hs : isInt start)
    (k : Nat) (ho : Owns w h a (frameAfter start step k)) :
    ∃ w2, driveLoop h 1 w = Except.ok (w2, [wrapInt (start + (k : Int) * step)]) := by
  have hr := resume_frameAfter start step hs k
  have hn := next_of_resume ho hr
  have ho2 := owns_after_resume ho (frameAfter start step (k + 1))
  have hv : Generator.getValue
      { w with frames := w.frames.set a (Cell.live (frameAfter start step (k + 1))) } h
      = Except.ok (wrapInt (start + (k : Int) * step)) := getValue_of_owns ho2 rfl
  refine ⟨{ w with frames := w.frames.set a (Cell.live (frameAfter start step (k + 1))) }, ?_⟩
  simp only [driveLoop, hn, hv, bind, Except.bind, pure, Except.pure]

theorem owns_worldAfter (w : World) (start step : Int) (k : Nat) :
    Owns (worldAfter w start step k) w.objs.length w.frames.length (frameAfter start step k) := by
  simp [Owns, worldAfter]

theorem advances_owned {w : World} {g a : Nat} {f : Frame} (h : Owns w g a f)
    (hb : f.body ≠ Suspend.final) (k : Nat) :
    ∃ wk fk, advances g k w = Except.ok wk ∧ Owns wk g a fk ∧ fk.body ≠ Suspend.final
      ∧ wk.objs = w.objs ∧ wk.released = w.released
      ∧ ∀ b : Nat, b ≠ a → wk.frames[b]? = w.frames[b]? := by
  induction k generalizing w f with
  | zero => exact ⟨w, f, rfl, h, hb, rfl, rfl, fun _ _ => rfl⟩
  | succ k ih =>
      obtain ⟨f1, hr, hd, hb1⟩ := resume_of_not_final hb
      have hn := next_of_resume h hr
      obtain ⟨wk, fk, e1, e2, e3, e4, e5, e6⟩ := ih (owns_after_resume h f1) hb1
      refine ⟨wk, fk, ?_, e2, e3, e4, e5, ?_⟩
      · simp only [advances, hn, bind, Except.bind]
        exact e1
      · intro b hba
        rw [e6 b hba]
        exact List.getElem?_set_ne (Ne.symm hba)

/-! ## C7: a move transfers the suspended computation -/

/-- C7 (as amended): let `g = getNext(start, step)` with `start` an `int` be
created in any state and advanced `k >= 0` times; `g` then owns a live frame.
Move-constructing `h` from `g` succeeds, leaves `g.coro` null and makes `h` own
the very frame `g` owned, with unchanged content. Move-assigning `g` to any
object `d` within its lifetime other than `g` itself does the same for `d`.
In both cases the next `next()` + `getValue()` on the destination reads
`start + k*step` reduced into the `int` range modulo `2^32`, which is exactly
`start + k*step` whenever that number is an `int`. -/
theorem move_transfers_computation (w : World) (start step : Int) (k : Nat)
    (hs : isInt start) :
    ∃ wk f,
      advances (getNext w start step).2 k (getNext w start step).1 = Except.ok wk
      ∧ Owns wk (getNext w start step).2 w.frames.length f
      ∧ (∃ w1 h, Generator.moveCtor wk (getNext w start step).2 = Except.ok (w1, h)
          ∧ h ≠ (getNext w start step).2
          ∧ w1.objs[(getNext w start step).2]? = some (some (Generator.mk none))
          ∧ Owns w1 h w.frames.length f
          ∧ (∃ w2, driveLoop h 1 w1 = Except.ok (w2, [wrapInt (start + (k : Int) * step)]))
          ∧ (isInt (start + (k : Int) * step) →
              ∃ w2, driveLoop h 1 w1 = Except.ok (w2, [start + (k : Int) * step])))
      ∧ (∀ (d : Nat) (x : Generator), wk.objs[d]? = some (some x) →
          d ≠ (getNext w start step).2 →
          ∃ w1, Generator.moveAssign wk d (getNext w start step).2 = Except.ok w1
            ∧ w1.objs[(getNext w start step).2]? = some (some (Generator.mk none))
            ∧ Owns w1 d w.frames.length f
            ∧ (∃ w2, driveLoop d 1 w1 = Except.ok (w2, [wrapInt (start + (k : Int) * step)]))
            ∧ (isInt (start + (k : Int) * step) →
                ∃ w2, driveLoop d 1 w1 = Except.ok (w2, [start + (k : Int) * step]))) := by
  have hadv : advances (getNext w start step).2 k (getNext w start step).1
      = Except.ok (worldAfter w start step k) := by
    have h := advances_worldAfter w start step hs k 0
    simpa [getNext_eq] using h
  have ho := owns_worldAfter w start step k
  have hwrap : isInt (start + (k : Int) * step) →
      wrapInt (start + (k : Int) * step) = start + (k : Int) * step := wrapInt_of_isInt
  refine ⟨worldAfter w start step k, frameAfter start step k, hadv, ho, ?_, ?_⟩
  · have o1 : Owns { worldAfter w start step k with
          objs := ((worldAfter w start step k).objs ++ [some (Generator.mk (some w.frames.length))]).set
            w.objs.length (some (Generator.mk none)) }
        (worldAfter w start step k).objs.length w.frames.length (frameAfter start step k) :=
      ⟨moveCtor_destination ho.1, ho.2⟩
    obtain ⟨w2, hw2⟩ := driveLoop_one_of_owns start step hs k o1
    refine ⟨_, _, moveCtor_of_lookup ho.1, ?_, moveCtor_source ho.1, o1, ⟨w2, hw2⟩, ?_⟩
    · simp [worldAfter, getNext]
    · intro hi
      exact ⟨w2, by rw [← hwrap hi]; exact hw2⟩
  · intro d x hdk hdne
    have o1 : Owns { worldAfter w start step k with
          objs := ((worldAfter w start step k).objs.set d (some (Generator.mk (some w.frames.length)))).set
            w.objs.length (some (Generator.mk none)) }
        d w.frames.length (frameAfter start step k) :=
      ⟨moveAssign_destination hdk hdne, ho.2⟩
    obtain ⟨w2, hw2⟩ := driveLoop_one_of_owns start step hs k o1
    refine ⟨_, moveAssign_of_lookup hdk ho.1, moveAssign_source ho.1, o1, ⟨w2, hw2⟩, ?_⟩
    intro hi
    exact ⟨w2, by rw [← hwrap hi]; exact hw2⟩

/-- Witness for C7: in a state whose object `0` holds a null handle (it has
been moved from), `getNext(100, -10)` is created as object `2`, advanced three
times and then moved, by construction of a new object and by assignment to
object `0`; the next value read from the destination is `70`. -/
theorem move_transfers_computation_witness :
    isInt 100
    ∧ isInt (100 + ((3 : Nat) : Int) * (-10))
    ∧ (run World.empty [Op.getNext 5 5, Op.moveCtor 0]).1.objs
        = [some (Generator.mk none), some (Generator.mk (some 0))]
    ∧ ∃ wk f,
      advances 2 3 (getNext (run World.empty [Op.getNext 5 5, Op.moveCtor 0]).1 100 (-10)).1
          = Except.ok wk
      ∧ Owns wk 2 1 f
      ∧ (∃ w1 h, Generator.moveCtor wk 2 = Except.ok (w1, h)
          ∧ h ≠ 2
          ∧ w1.objs[2]? = some (some (Generator.mk none))
          ∧ Owns w1 h 1 f
          ∧ ∃ w2, driveLoop h 1 w1 = Except.ok (w2, [70]))
      ∧ (∃ w1, Generator.moveAssign wk 0 2 = Except.ok w1
          ∧ w1.objs[2]? = some (some (Generator.mk none))
          ∧ Owns w1 0 1 f
          ∧ ∃ w2, driveLoop 0 1 w1 = Except.ok (w2, [70])) := by
  obtain ⟨wk, f, hadv, ho, ⟨w1, h, c1, c2, c3, c4, _, c6⟩, hassign⟩ :=
    move_transfers_computation (run World.empty [Op.getNext 5 5, Op.moveCtor 0]).1
      100 (-10) 3 (by decide)
  have hwk : advances 2 3
      (getNext (run World.empty [Op.getNext 5 5, Op.moveCtor 0]).1 100 (-10)).1
      = Except.ok (worldAfter (run World.empty [Op.getNext 5 5, Op.moveCtor 0]).1 100 (-10) 3) :=
    rfl
  have hadv2 : advances 2 3
      (getNext (run World.empty [Op.getNext 5 5, Op.moveCtor 0]).1 100 (-10)).1
      = Except.ok wk := hadv
  have hd : wk.objs[0]? = some (some (Generator.mk none)) := by
    rw [hwk] at hadv2
    simp only [Except.ok.injEq] at hadv2
    rw [← hadv2]
    rfl
  obtain ⟨v1, a1, a2, a3, _, a5⟩ := hassign 0 (Generator.mk none) hd (by decide)
  exact ⟨by decide, by decide, rfl, wk, f, hadv, ho,
    ⟨w1, h, c1, c2, c3, c4, c6 (by decide)⟩, ⟨v1, a1, a2, a3, a5 (by decide)⟩⟩

/-- C7 as stated fails in two places. After one advance of
`getNext(2147483647, 1)` and a move construction, the next round on the
destination reads `-2147483648`, not `2147483647 + 1*1`. And the move
assignment `g = std::move(g)` leaves the destination `g` with a null handle:
it does not refer to the computation it was assigned. -/
theorem move_transfers_computation_fails :
    isInt 2147483647 ∧ isInt 1
    ∧ moveCtorThenRead 2147483647 1 1 = Except.ok [-2147483648]
    ∧ moveCtorThenRead 2147483647 1 1 ≠ Except.ok [2147483647 + ((1 : Nat) : Int) * 1]
    ∧ selfMoveAssign 0 1 0 = Except.ok (some (some (Generator.mk none))) := by
  refine ⟨by decide, by decide, rfl, ?_, rfl⟩
  intro h
  have h2 : moveCtorThenRead 2147483647 1 1 = Except.ok [-2147483648] := rfl
  rw [h2] at h
  simp at h

/-! ## C8: operations on a moved-from handle -/

/-- C8 (as amended): after a move construction from `src`, and after a move
assignment from `src` to any object `d`, the object `src` holds the null
handle. On such a moved-from object the destructor is a no-op on the frames:
it succeeds, releases nothing and changes no frame (its `if (coro)` test
fails). `next()` and `getValue()` have no such test: both call through the
null handle, which is the fault `nullHandle`. -/
theorem moved_from_operations (w : World) (src d : Nat) (c : Option Nat) (x : Generator)
    (hsrc : w.objs[src]? = some (some (Generator.mk c)))
    (hd : w.objs[d]? = some (some x)) :
    (∃ w1 h, Generator.moveCtor w src = Except.ok (w1, h)
      ∧ w1.objs[src]? = some (some (Generator.mk none))
      ∧ (∃ w2, Generator.dtor w1 src = Except.ok w2
          ∧ w2.frames = w1.frames ∧ w2.released = w1.released)
      ∧ Generator.next w1 src = Except.error Fault.nullHandle
      ∧ Generator.getValue w1 src = Except.error Fault.nullHandle)
    ∧ (∃ w1, Generator.moveAssign w d src = Except.ok w1
      ∧ w1.objs[src]? = some (some (Generator.mk none))
      ∧ (∃ w2, Generator.dtor w1 src = Except.ok w2
          ∧ w2.frames = w1.frames ∧ w2.released = w1.released)
      ∧ Generator.next w1 src = Except.error Fault.nullHandle
      ∧ Generator.getValue w1 src = Except.error Fault.nullHandle) := by
  have gen : ∀ w1 : World, w1.objs[src]? = some (some (Generator.mk none)) →
      (∃ w2, Generator.dtor w1 src = Except.ok w2
          ∧ w2.frames = w1.frames ∧ w2.released = w1.released)
      ∧ Generator.next w1 src = Except.error Fault.nullHandle
      ∧ Generator.getValue w1 src = Except.error Fault.nullHandle := by
    intro w1 h1
    refine ⟨⟨_, dtor_of_null h1, rfl, rfl⟩, ?_, ?_⟩
    · simp [Generator.next, objAt_of_lookup h1, deref, bind, Except.bind]
    · simp [Generator.getValue, objAt_of_lookup h1, deref, bind, Except.bind]
  refine ⟨⟨_, _, moveCtor_of_lookup hsrc, moveCtor_source hsrc, ?_⟩,
    ⟨_, moveAssign_of_lookup hd hsrc, moveAssign_source hsrc, ?_⟩⟩
  · exact gen _ (moveCtor_source hsrc)
  · exact gen _ (moveAssign_source hsrc)

/-- Witness for C8: two generators are created; the first is moved from, by
construction of a third object and by assignment to the second. -/
theorem moved_from_operations_witness :
    (getNext (getNext World.empty 0 1).1 100 (-10)).1.objs[0]?
        = some (some (Generator.mk (some 0)))
    ∧ (getNext (getNext World.empty 0 1).1 100 (-10)).1.objs[1]?
        = some (some (Generator.mk (some 1)))
    ∧ (∃ w1 h, Generator.moveCtor (getNext (getNext World.empty 0 1).1 100 (-10)).1 0
          = Except.ok (w1, h)
      ∧ w1.objs[0]? = some (some (Generator.mk none))
      ∧ (∃ w2, Generator.dtor w1 0 = Except.ok w2
          ∧ w2.frames = w1.frames ∧ w2.released = w1.released)
      ∧ Generator.next w1 0 = Except.error Fault.nullHandle
      ∧ Generator.getValue w1 0 = Except.error Fault.nullHandle)
    ∧ (∃ w1, Generator.moveAssign (getNext (getNext World.empty 0 1).1 100 (-10)).1 1 0
          = Except.ok w1
      ∧ w1.objs[0]? = some (some (Generator.mk none))
      ∧ (∃ w2, Generator.dtor w1 0 = Except.ok w2
          ∧ w2.frames = w1.frames ∧ w2.released = w1.released)
      ∧ Generator.next w1 0 = Except.error Fault.nullHandle
      ∧ Generator.getValue w1 0 = Except.error Fault.nullHandle) :=
  ⟨rfl, rfl,
    moved_from_operations (getNext (getNext World.empty 0 1).1 100 (-10)).1 0 1 (some 0)
      (Generator.mk (some 1)) rfl rfl⟩

/-- C8 as stated fails: after `auto g = getNext(0, 1); Generator<int>
h(std::move(g));` both `g.next()` and `g.getValue()` reach the null-handle
fault. -/
theorem moved_from_use_faults :
    useAfterMove 0 1 0
      = Except.ok (Except.error Fault.nullHandle, Except.error Fault.nullHandle) := rfl

/-! ## C9: the computation is released exactly once -/

theorem count_released_fresh {w : World} (hw : Inv w) :
    w.released.count w.frames.length = 0 := by
  apply List.count_eq_zero.mpr
  intro hm
  have := lt_of_getElem?_eq_some (hw.released_freed _ hm)
  omega

theorem count_append_self (l : List Nat) (a : Nat) (h : l.count a = 0) :
    (l ++ [a]).count a = 1 := by
  rw [List.count_append, h]
  simp

/-- C9: in any state reached by a program, let `g = getNext(start, step)` be
created and advanced `k >= 0` times (`k = 0`: still at the initial suspend
point); its frame has not been released. Then
* destroying `g` succeeds, frees the frame and releases it once;
* after `Generator h(std::move(g))`, destroying `g` and then `h` succeeds:
  the destructor of `g` (null handle) releases nothing and leaves the frame
  live, the destructor of `h` frees it, and it has been released once;
* in the other order the destructor of `h` frees and releases the frame and
  the destructor of `g` then releases nothing: again released once.
In general the destructor of an object within its lifetime succeeds and
releases the frame its handle refers to when the handle is non-null, and
nothing when it is null. -/
theorem destroy_releases_once (ops : List Op) (start step : Int) (k : Nat) :
    (∃ wk,
      advances (getNext (run World.empty ops).1 start step).2 k
          (getNext (run World.empty ops).1 start step).1 = Except.ok wk
      ∧ wk.released.count (run World.empty ops).1.frames.length = 0
      ∧ (∃ w1, Generator.dtor wk (getNext (run World.empty ops).1 start step).2 = Except.ok w1
          ∧ w1.frames[(run World.empty ops).1.frames.length]? = some Cell.freed
          ∧ w1.released.count (run World.empty ops).1.frames.length = 1)
      ∧ (∃ w1 h w2 w3,
          Generator.moveCtor wk (getNext (run World.empty ops).1 start step).2 = Except.ok (w1, h)
          ∧ Generator.dtor w1 (getNext (run World.empty ops).1 start step).2 = Except.ok w2
          ∧ w2.released = wk.released
          ∧ (∃ f, w2.frames[(run World.empty ops).1.frames.length]? = some (Cell.live f))
          ∧ Generator.dtor w2 h = Except.ok w3
          ∧ w3.frames[(run World.empty ops).1.frames.length]? = some Cell.freed
          ∧ w3.released.count (run World.empty ops).1.frames.length = 1)
      ∧ (∃ w1 h w2 w3,
          Generator.moveCtor wk (getNext (run World.empty ops).1 start step).2 = Except.ok (w1, h)
          ∧ Generator.dtor w1 h = Except.ok w2
          ∧ w2.frames[(run World.empty ops).1.frames.length]? = some Cell.freed
          ∧ w2.released.count (run World.empty ops).1.frames.length = 1
          ∧ Generator.dtor w2 (getNext (run World.empty ops).1 start step).2 = Except.ok w3
          ∧ w3.frames = w2.frames
          ∧ w3.released = w2.released))
    ∧ (∀ (g : Nat) (gen : Generator), (run World.empty ops).1.objs[g]? = some (some gen) →
        ∃ w1, Generator.dtor (run World.empty ops).1 g = Except.ok w1
          ∧ w1.released = (run World.empty ops).1.released ++ gen.coro.toList) := by
  have hw : Inv (run World.empty ops).1 := inv_run inv_empty ops
  generalize (run World.empty ops).1 = w at hw ⊢
  constructor
  · have o0 : Owns (getNext w start step).1 (getNext w start step).2 w.frames.length
        { promise := { current_value := none }, body := Suspend.initial start step } := by
      simp [Owns, getNext]
    obtain ⟨wk, fk, hadv, ho, _, hobjs, hrel, _⟩ := advances_owned o0 (by simp) k
    have ha : w.frames.length < wk.frames.length := lt_of_getElem?_eq_some ho.2
    have hrel0 : wk.released = w.released := hrel
    have hc0 : wk.released.count w.frames.length = 0 := by
      rw [hrel0]
      exact count_released_fresh hw
    have hg : (getNext w start step).2 = w.objs.length := rfl
    have hlen : wk.objs.length = w.objs.length + 1 := by
      rw [hobjs]
      simp [getNext]
    -- the state after the move construction
    have hmv := moveCtor_of_lookup ho.1
    have hsrc := moveCtor_source ho.1
    have hdst := moveCtor_destination ho.1
    have hne : wk.objs.length ≠ (getNext w start step).2 := by omega
    refine ⟨wk, hadv, hc0, ?_, ?_, ?_⟩
    · refine ⟨_, dtor_of_owns ho, List.getElem?_set_self ha, ?_⟩
      exact count_append_self _ _ hc0
    · -- source first
      have h2 := dtor_of_null (w := { wk with
          objs := (wk.objs ++ [some (Generator.mk (some w.frames.length))]).set
            (getNext w start step).2 (some (Generator.mk none)) }) hsrc
      have o3 : Owns { wk with
          objs := ((wk.objs ++ [some (Generator.mk (some w.frames.length))]).set
            (getNext w start step).2 (some (Generator.mk none))).set
              (getNext w start step).2 none }
          wk.objs.length w.frames.length fk := by
        refine ⟨?_, ho.2⟩
        simp only []
        rw [List.getElem?_set_ne (Ne.symm hne)]
        exact hdst
      refine ⟨_, _, _, _, hmv, h2, rfl, ⟨fk, ho.2⟩, dtor_of_owns o3,
        List.getElem?_set_self ha, ?_⟩
      exact count_append_self _ _ hc0
    · -- destination first
      have o1 : Owns { wk with
          objs := (wk.objs ++ [some (Generator.mk (some w.frames.length))]).set
            (getNext w start step).2 (some (Generator.mk none)) }
          wk.objs.length w.frames.length fk := ⟨hdst, ho.2⟩
      have h2 := dtor_of_owns o1
      have hnull : (((wk.objs ++ [some (Generator.mk (some w.frames.length))]).set
            (getNext w start step).2 (some (Generator.mk none))).set wk.objs.length none)[
              (getNext w start step).2]? = some (some (Generator.mk none)) := by
        rw [List.getElem?_set_ne hne]
        exact hsrc
      refine ⟨_, _, _, _, hmv, h2, List.getElem?_set_self ha, count_append_self _ _ hc0,
        dtor_of_null hnull, rfl, rfl⟩
  · intro g gen hg
    rcases gen with ⟨c⟩
    cases c with
    | none => exact ⟨_, dtor_of_null hg, by simp⟩
    | some a =>
        obtain ⟨f, hf⟩ := hw.owned_live g a hg
        exact ⟨_, dtor_of_owns ⟨hg, hf⟩, by simp⟩

/-- Witness for C9: after `getNext(0, 1); next(); getNext(100, -10)`, the
destructor of object `0` (non-null handle to frame `0`) releases frame `0`. -/
theorem destroy_releases_once_witness :
    (run World.empty [Op.getNext 0 1, Op.next 0, Op.getNext 100 (-10)]).1.objs[0]?
        = some (some (Generator.mk (some 0)))
    ∧ ∃ w1, Generator.dtor
          (run World.empty [Op.getNext 0 1, Op.next 0, Op.getNext 100 (-10)]).1 0 = Except.ok w1
        ∧ w1.released
          = (run World.empty [Op.getNext 0 1, Op.next 0, Op.getNext 100 (-10)]).1.released
              ++ (Generator.mk (some 0)).coro.toList :=
  ⟨rfl, (destroy_releases_once [Op.getNext 0 1, Op.next 0, Op.getNext 100 (-10)] 7 3 2).2
    0 (Generator.mk (some 0)) rfl⟩

/-! ## C11: the ordering derived from the defaulted `<=>` -/

/-- C11: for all ages `x` and `y` the six comparison operators of `Student`,
all derived from the defaulted `<=>`, agree with the comparison of the ages:
`Student(x) > Student(y)` iff `x > y`, and likewise `==`, `!=`, `<`, `<=`,
`>=`. In particular `Student(18) > Student(17)` is true and `spaceship_test`
prints `A is older!`. -/
theorem student_ordering (x y : Int) :
    ((Student.mk x).gt (Student.mk y) = true ↔ x > y)
    ∧ ((Student.mk x).eq (Student.mk y) = true ↔ x = y)
    ∧ ((Student.mk x).ne (Student.mk y) = true ↔ x ≠ y)
    ∧ ((Student.mk x).lt (Student.mk y) = true ↔ x < y)
    ∧ ((Student.mk x).le (Student.mk y) = true ↔ x ≤ y)
    ∧ ((Student.mk x).ge (Student.mk y) = true ↔ x ≥ y)
    ∧ (Student.mk 18).gt (Student.mk 17) = true
    ∧ spaceship_test = "A is older!\n" := by
  refine ⟨?_, ?_, ?_, ?_, ?_, ?_, by decide, by decide⟩
  · simp only [Student.gt, Student.spaceship, intSpaceship]
    split_ifs <;> simp <;> omega
  · simp [Student.eq]
  · simp [Student.ne, Student.eq]
  · simp only [Student.lt, Student.spaceship, intSpaceship]
    split_ifs <;> simp <;> omega
  · simp only [Student.le, Student.spaceship, intSpaceship]
    split_ifs <;> simp <;> omega
  · simp only [Student.ge, Student.spaceship, intSpaceship]
    split_ifs <;> simp <;> omega

/-! ## Facts about `gcd` -/

theorem natAbs_tmod (a b : Int) : (a.tmod b).natAbs = a.natAbs % b.natAbs :=
  match a, b with
  | Int.ofNat _, Int.ofNat _ => rfl
  | Int.ofNat _, Int.negSucc _ => rfl
  | Int.negSucc m, Int.ofNat n => by
      show (-(Int.ofNat (Nat.succ m % n))).natAbs = _
      rw [Int.natAbs_neg]
      rfl
  | Int.negSucc m, Int.negSucc n => by
      show (-(Int.ofNat (Nat.succ m % Nat.succ n))).natAbs = _
      rw [Int.natAbs_neg]
      rfl

theorem natAbs_tmod_lt (a : Int) {b : Int} (hb : b ≠ 0) :
    (a.tmod b).natAbs < b.natAbs := by
  rw [natAbs_tmod]
  exact Nat.mod_lt _ (Int.natAbs_pos.mpr hb)

theorem gcd_total (fuel : Nat) (a b : Int) (h : b.natAbs < fuel) :
    ∃ r, gcd fuel a b = some r := by
  induction fuel generalizing a b with
  | zero => omega
  | succ n ih =>
      by_cases hb : b = 0
      · exact ⟨a, by simp [gcd, hb]⟩
      · have hlt := natAbs_tmod_lt a hb
        obtain ⟨r, hr⟩ := ih b (a.tmod b) (by omega)
        exact ⟨r, by simp [gcd, hb, hr]⟩

theorem gcd_unique {f1 f2 : Nat} {a b r1 r2 : Int} (h1 : gcd f1 a b = some r1)
    (h2 : gcd f2 a b = some r2) : r1 = r2 := by
  induction f1 generalizing f2 a b with
  | zero => simp [gcd] at h1
  | succ n ih =>
      cases f2 with
      | zero => simp [gcd] at h2
      | succ m =>
          by_cases hb : b = 0
          · simp [gcd, hb] at h1 h2
            rw [← h1, ← h2]
          · simp only [gcd, hb, if_false] at h1 h2
            exact ih h1 h2

theorem gcd_mono {fuel : Nat} {a b r : Int} (h : gcd fuel a b = some r) (k : Nat) :
    gcd (fuel + k) a b = some r := by
  induction fuel generalizing a b with
  | zero => simp [gcd] at h
  | succ n ih =>
      have e : n + 1 + k = (n + k) + 1 := by omega
      rw [e]
      by_cases hb : b = 0
      · simp [gcd, hb] at h ⊢
        exact h
      · simp only [gcd, hb, if_false] at h ⊢
        exact ih h

theorem gcd_result (a b : Int) :
    ∃ r, ∀ fuel, b.natAbs < fuel → gcd fuel a b = some r := by
  obtain ⟨r, hr⟩ := gcd_total (b.natAbs + 1) a b (Nat.lt_succ_self _)
  refine ⟨r, fun fuel hf => ?_⟩
  obtain ⟨r2, hr2⟩ := gcd_total fuel a b hf
  rw [hr2, gcd_unique hr2 hr]

theorem gcd_natAbs {fuel : Nat} {a b r : Int} (h : gcd fuel a b = some r) :
    r.natAbs = Nat.gcd a.natAbs b.natAbs := by
  induction fuel generalizing a b with
  | zero => simp [gcd] at h
  | succ n ih =>
      by_cases hb : b = 0
      · simp [gcd, hb] at h
        subst hb
        subst h
        simp
      · simp only [gcd, hb, if_false] at h
        rw [ih h, natAbs_tmod, Nat.gcd_comm a.natAbs b.natAbs, Nat.gcd_rec b.natAbs a.natAbs]
        by_cases hz : b.natAbs = 0
        · exact absurd (Int.natAbs_eq_zero.mp hz) hb
        · rw [Nat.gcd_comm]

theorem gcd_nonneg {fuel : Nat} {a b r : Int} (ha : 0 ≤ a) (hb : 0 ≤ b)
    (h : gcd fuel a b = some r) : 0 ≤ r := by
  induction fuel generalizing a b with
  | zero => simp [gcd] at h
  | succ n ih =>
      by_cases hz : b = 0
      · simp [gcd, hz] at h
        rw [← h]
        exact ha
      · simp only [gcd, hz, if_false] at h
        exact ih hb (Int.tmod_nonneg b ha) h

/-! ## C12: `gcd` on non-negative integers -/

/-- C12: for all non-negative integers `a` and `b` the call `gcd(a, b)`
returns (with any bound on the nesting above `b`) the greatest common divisor
of `a` and `b`: a non-negative common divisor that every common divisor
divides. `gcd(a, 0)` is `a`, `gcd(0, 0)` is `0`, and `gcd(20, 25)` is `5`. -/
theorem gcd_nonneg_correct (a b : Int) (ha : 0 ≤ a) (hb : 0 ≤ b) :
    (∃ r, (∀ fuel, b.natAbs < fuel → gcd fuel a b = some r)
      ∧ r = (Int.gcd a b : Int)
      ∧ 0 ≤ r ∧ r ∣ a ∧ r ∣ b ∧ ∀ d : Int, d ∣ a → d ∣ b → d ∣ r)
    ∧ (∀ fuel, 0 < fuel → gcd fuel a 0 = some a)
    ∧ (∀ fuel, 0 < fuel → gcd fuel 0 0 = some 0)
    ∧ (∀ fuel, 3 < fuel → gcd fuel 20 25 = some 5) := by
  refine ⟨?_, ?_, ?_, ?_⟩
  · obtain ⟨r, hr⟩ := gcd_result a b
    have h1 := hr (b.natAbs + 1) (Nat.lt_succ_self _)
    have hn : 0 ≤ r := gcd_nonneg ha hb h1
    have hg : r = (Int.gcd a b : Int) := by
      have := gcd_natAbs h1
      rw [Int.gcd, ← this]
      exact (Int.natAbs_of_nonneg hn).symm
    refine ⟨r, hr, hg, hn, ?_, ?_, ?_⟩
    · rw [hg]; exact Int.gcd_dvd_left
    · rw [hg]; exact Int.gcd_dvd_right
    · intro d h1 h2
      rw [hg]
      exact Int.dvd_gcd h1 h2
  · intro fuel hf
    obtain ⟨n, rfl⟩ : ∃ n, fuel = n + 1 := ⟨fuel - 1, by omega⟩
    simp [gcd]
  · intro fuel hf
    obtain ⟨n, rfl⟩ : ∃ n, fuel = n + 1 := ⟨fuel - 1, by omega⟩
    simp [gcd]
  · intro fuel hf
    obtain ⟨n, rfl⟩ : ∃ n, fuel = n + 4 := ⟨fuel - 4, by omega⟩
    have h4 : gcd 4 20 25 = some 5 := by decide
    have h5 := gcd_mono h4 n
    rw [Nat.add_comm] at h5
    exact h5

/-- Witness for C12: `gcd(12, 18)` is `6`. -/
theorem gcd_nonneg_correct_witness :
    (0 : Int) ≤ 12 ∧ (0 : Int) ≤ 18 ∧ gcd 19 12 18 = some 6 ∧ (6 : Int) = (Int.gcd 12 18 : Int) := by
  obtain ⟨⟨r, hr, hg, _⟩, _⟩ := gcd_nonneg_correct 12 18 (by decide) (by decide)
  have h19 := hr 19 (by decide)
  have h6 : (Int.gcd 12 18 : Int) = 6 := by decide
  rw [h6] at hg
  subst hg
  exact ⟨by decide, by decide, h19, by decide⟩

/-! ## C13: the pipeline of `range()` -/

theorem even_iff_dvd (i : Int) : even i = true ↔ (2 : Int) ∣ i := by
  simp [even, Int.dvd_iff_tmod_eq_zero]

/-- C13: `range()` prints `0 4 16`; for every list of `int`s the loop over
`filter(even) | transform(square)` prints `map square (filter even xs)`, the
squares of exactly the even elements in their original order. Here `even i`
holds exactly when 2 divides `i`, and `square i` is the `int` product `i * i`,
which is the square of `i` whenever that square is an `int`. -/
theorem pipeline_squares_of_evens (xs : List Int) :
    range = [0, 4, 16]
    ∧ pipeline xs = (xs.filter even).map square
    ∧ pipeline xs = squaresOfEvens xs
    ∧ ∀ i : Int, (even i = true ↔ (2 : Int) ∣ i) ∧ (isInt (i * i) → square i = i * i) := by
  have h : pipeline xs = (xs.filter even).map square := by
    induction xs with
    | nil => rfl
    | cons i ints ih =>
        by_cases he : even i = true
        · simp [pipeline, he, ih]
        · simp [pipeline, he, ih]
  exact ⟨by decide, h, h, fun i => ⟨even_iff_dvd i, fun hi => wrapInt_of_isInt hi⟩⟩

/-- Witness for C13: on `[7, -4, 6]` the loop prints `16 36`. -/
theorem pipeline_squares_of_evens_witness :
    pipeline [7, -4, 6] = [16, 36]
    ∧ isInt ((-4) * (-4)) ∧ square (-4) = (-4) * (-4) := by
  have h := pipeline_squares_of_evens [7, -4, 6]
  exact ⟨by rw [h.2.1]; decide, by decide, (h.2.2.2 (-4)).2 (by decide)⟩

/-! ## C14: repetitions among the values read -/

theorem driveLoop_in_range (w : World) (start step : Int) (n : Nat) (hs : isInt start)
    (hn : 1 ≤ n) (hl : isInt (start + ((n : Int) - 1) * step)) :
    driveLoop (getNext w start step).2 n (getNext w start step).1
      = Except.ok (worldAfter w start step n,
          (List.range n).map (fun k : Nat => start + (k : Int) * step)) := by
  have key := driveLoop_worldAfter w start step hs n 0
  simp only [Nat.zero_add] at key
  rw [getNext_eq, key]
  congr 2
  apply List.map_congr_left
  intro k hk
  have hk1 : k ≤ n - 1 := by
    have := List.mem_range.mp hk
    omega
  have hcast : ((n - 1 : Nat) : Int) = (n : Int) - 1 := by
    push_cast [hn]
    rfl
  exact wrapInt_of_isInt (isInt_between start step (n - 1) k hk1 hs (by rw [hcast]; exact hl))

/-- C14 (as amended): for every `int` start, every step other than `0` and
every `n` for which the last term `start + (n-1)*step` is still an `int`, the
`n` rounds `next()` then `getValue()` on `getNext(start, step)` succeed and the
`n` values read are pairwise different: the values at two different positions
differ. -/
theorem reads_pairwise_different (w : World) (start step : Int) (n : Nat)
    (hs : isInt start) (hstep : step ≠ 0) (hn : 1 ≤ n)
    (hl : isInt (start + ((n : Int) - 1) * step)) :
    ∃ w1 out, driveLoop (getNext w start step).2 n (getNext w start step).1 = Except.ok (w1, out)
      ∧ out.length = n
      ∧ out.Nodup
      ∧ ∀ i j : Nat, i < n → j < n → i ≠ j → out[i]? ≠ out[j]? := by
  refine ⟨_, _, driveLoop_in_range w start step n hs hn hl, by simp, ?_, ?_⟩
  · apply List.Nodup.map _ (List.nodup_range n)
    intro i j hij
    have h1 : (i : Int) * step = (j : Int) * step := by
      have h0 : start + (i : Int) * step = start + (j : Int) * step := hij
      linarith
    have h2 : (i : Int) = (j : Int) := mul_right_cancel₀ hstep h1
    exact_mod_cast h2
  · intro i j hi hj hij h
    simp only [List.getElem?_map, List.getElem?_range hi, List.getElem?_range hj,
      Option.map_some', Option.some.injEq] at h
    have h1 : (i : Int) * step = (j : Int) * step := by linarith
    have h2 : (i : Int) = (j : Int) := mul_right_cancel₀ hstep h1
    exact hij (by exact_mod_cast h2)

/-- Witness for C14: the four values read from `getNext(7, 3)` are pairwise
different. -/
theorem reads_pairwise_different_witness :
    isInt 7 ∧ (3 : Int) ≠ 0 ∧ 1 ≤ 4 ∧ isInt (7 + (((4 : Nat) : Int) - 1) * 3)
    ∧ ∃ w1 out, driveLoop (getNext World.empty 7 3).2 4 (getNext World.empty 7 3).1
          = Except.ok (w1, out)
      ∧ out.length = 4
      ∧ out.Nodup
      ∧ ∀ i j : Nat, i < 4 → j < 4 → i ≠ j → out[i]? ≠ out[j]? :=
  ⟨by decide, by decide, by decide, by decide,
    reads_pairwise_different World.empty 7 3 4 (by decide) (by decide) (by decide) (by decide)⟩

/-- C14 as stated fails. With step `0`, `getNext(5, 0)` reads `5` at both of
its first two rounds. With a step that overflows, `getNext(0, -2147483648)`
reads `0` again at its third round. -/
theorem reads_repeat :
    isInt 5 ∧ isInt 0 ∧ isInt (-2147483648)
    ∧ Except.map Prod.snd
        (driveLoop (getNext World.empty 5 0).2 2 (getNext World.empty 5 0).1)
      = Except.ok [5, 5]
    ∧ Except.map Prod.snd
        (driveLoop (getNext World.empty 0 (-2147483648)).2 3
          (getNext World.empty 0 (-2147483648)).1)
      = Except.ok [0, -2147483648, 0] :=
  ⟨by decide, by decide, by decide, rfl, rfl⟩

/-! ## C15: move assignment onto a handle that owns a computation -/

theorem moveAssign_unreachable {w w1 : World} {d g a : Nat} {f : Frame} {c : Option Nat}
    (hw : Inv w) (hd : Owns w d a f) (hg : w.objs[g]? = some (some (Generator.mk c)))
    (h : Generator.moveAssign w d g = Except.ok w1) : Unreachable w1 a := by
  rw [moveAssign_of_lookup hd.1 hg] at h
  simp only [Except.ok.injEq] at h
  subst h
  refine ⟨⟨f, hd.2⟩, ?_⟩
  intro i hi
  rcases getElem?_set_eq_some hi with ⟨_, hx⟩ | ⟨hne, hx⟩
  · simp at hx
  · rcases getElem?_set_eq_some hx with ⟨hdi, hca⟩ | ⟨hdi, hold⟩
    · have hc : c = some a := by simpa using hca
      subst hc
      have hgd : g = d := hw.exclusive g d a hg hd.1
      exact hne (hgd.trans hdi)
    · exact hdi (hw.exclusive d i a hd.1 hold)

/-- C15, the code at the failing inputs. After `auto g = getNext(0, 1); auto h
= getNext(100, -10); g = std::move(h);` every call returned normally, nothing
was released, `g` refers to the frame of `h`, and the frame `g` owned before
is live with no handle referring to it. After `auto g = getNext(0, 1); g =
std::move(g);` the handle of `g` is null, nothing was released, and the frame
of `g` is live with no handle referring to it. -/
theorem moveAssign_leaks_previous :
    (run World.empty [Op.getNext 0 1, Op.getNext 100 (-10), Op.moveAssign 0 1]).2
        = [Obs.object 0, Obs.object 1, Obs.unit]
    ∧ (run World.empty [Op.getNext 0 1, Op.getNext 100 (-10), Op.moveAssign 0 1]).1.objs
        = [some (Generator.mk (some 1)), some (Generator.mk none)]
    ∧ (run World.empty [Op.getNext 0 1, Op.getNext 100 (-10), Op.moveAssign 0 1]).1.released = []
    ∧ Unreachable
        (run World.empty [Op.getNext 0 1, Op.getNext 100 (-10), Op.moveAssign 0 1]).1 0
    ∧ (run World.empty [Op.getNext 0 1, Op.moveAssign 0 0]).2 = [Obs.object 0, Obs.unit]
    ∧ (run World.empty [Op.getNext 0 1, Op.moveAssign 0 0]).1.objs = [some (Generator.mk none)]
    ∧ (run World.empty [Op.getNext 0 1, Op.moveAssign 0 0]).1.released = []
    ∧ Unreachable (run World.empty [Op.getNext 0 1, Op.moveAssign 0 0]).1 0 := by
  refine ⟨rfl, rfl, rfl, ?_, rfl, rfl, rfl, ?_⟩
  · have hw : Inv (run World.empty [Op.getNext 0 1, Op.getNext 100 (-10)]).1 :=
      inv_run inv_empty _
    exact moveAssign_unreachable (d := 0) (g := 1) (c := some 1)
      (f := { promise := { current_value := none }, body := Suspend.initial 0 1 })
      hw ⟨rfl, rfl⟩ rfl rfl
  · have hw : Inv (run World.empty [Op.getNext 0 1]).1 := inv_run inv_empty _
    exact moveAssign_unreachable (d := 0) (g := 0) (c := some 0)
      (f := { promise := { current_value := none }, body := Suspend.initial 0 1 })
      hw ⟨rfl, rfl⟩ rfl rfl

/-! ## C16: `getValue()` is a pure read -/

theorem run_getValue_of_owns {w : World} {g a : Nat} {f : Frame} {v : Int} (ho : Owns w g a f)
    (hv : f.promise.current_value = some v) (m : Nat) :
    run w (List.replicate m (Op.getValue g)) = (w, List.replicate m (Obs.value v)) := by
  induction m with
  | zero => rfl
  | succ m ih =>
      have hs : step w (Op.getValue g) = (w, Obs.value v) := by
        simp [step, getValue_of_owns ho hv]
      simp only [List.replicate_succ, run, hs]
      rw [ih]

/-- C16: whenever a call `g.next()` has returned, leaving the state `w1`, the
frame of `g` is parked at `co_yield value` and its `current_value` holds that
same `value`, the one just yielded; `getValue()` returns it, and any number
`m` of consecutive `getValue()` calls all return it and leave the whole state
(accumulator, current value, suspension point, every other frame and object)
exactly as it was. -/
theorem getValue_pure_read (w w1 : World) (g : Nat) (b : Bool) (m : Nat)
    (hn : Generator.next w g = Except.ok (w1, b)) :
    ∃ (v st : Int) (a : Nat),
      Owns w1 g a { promise := { current_value := some v }, body := Suspend.yielded v st }
      ∧ Generator.getValue w1 g = Except.ok v
      ∧ (step w1 (Op.getValue g)).1 = w1
      ∧ run w1 (List.replicate m (Op.getValue g)) = (w1, List.replicate m (Obs.value v)) := by
  obtain ⟨a, f, f1, ho, hr, rfl⟩ := next_ok_inv hn
  have ho1 := owns_after_resume ho f1
  have hshape : ∃ v st : Int,
      f1 = { promise := { current_value := some v }, body := Suspend.yielded v st } := by
    rcases f with ⟨p, bd⟩
    cases bd with
    | initial s d =>
        simp only [getNext.resume, promise_type.yield_value, Except.ok.injEq] at hr
        exact ⟨s, d, hr.symm⟩
    | yielded v d =>
        simp only [getNext.resume, promise_type.yield_value, Except.ok.injEq] at hr
        exact ⟨wrapInt (v + d), d, hr.symm⟩
    | final => simp [getNext.resume] at hr
  obtain ⟨v, st, rfl⟩ := hshape
  have hrun := run_getValue_of_owns ho1 (v := v) rfl m
  refine ⟨v, st, a, ho1, getValue_of_owns ho1 rfl, ?_, hrun⟩
  simp [step, getValue_of_owns ho1 (v := v) rfl]

/-- Witness for C16: after the second `next()` on `getNext(100, -10)`, three
`getValue()` calls in a row read `90` and change nothing. -/
theorem getValue_pure_read_witness :
    ∃ w w1, Generator.next w 0 = Except.ok (w1, true)
      ∧ Generator.getValue w1 0 = Except.ok 90
      ∧ run w1 (List.replicate 3 (Op.getValue 0)) = (w1, List.replicate 3 (Obs.value 90)) := by
  have hn : Generator.next (worldAfter World.empty 100 (-10) 1) 0
      = Except.ok (worldAfter World.empty 100 (-10) 2, true) := rfl
  obtain ⟨v, st, a, _, hv, _, hrun⟩ :=
    getValue_pure_read (worldAfter World.empty 100 (-10) 1)
      (worldAfter World.empty 100 (-10) 2) 0 true 3 hn
  have h90 : Generator.getValue (worldAfter World.empty 100 (-10) 2) 0 = Except.ok 90 := rfl
  have hv90 : v = 90 := by
    rw [h90] at hv
    simp only [Except.ok.injEq] at hv
    exact hv.symm
  subst hv90
  exact ⟨_, _, hn, h90, hrun⟩

/-! ## C17: `gcd` terminates -/

/-- C17: `gcd(a, b)` terminates for every pair of integers, negative ones
included. The remainder `a % b` is evaluated only when `b` is not `0`, and
there its absolute value is smaller than that of `b`; so a nesting bound
above the absolute value of `b` is never reached: with any such bound the
call returns one and the same result. -/
theorem gcd_terminates (a b : Int) :
    (b ≠ 0 → (a.tmod b).natAbs < b.natAbs)
    ∧ (∀ fuel : Nat, gcd (fuel + 1) a b = if b = 0 then some a else gcd fuel b (a.tmod b))
    ∧ ∃ r, ∀ fuel, b.natAbs < fuel → gcd fuel a b = some r :=
  ⟨fun hb => natAbs_tmod_lt a hb, fun _ => rfl, gcd_result a b⟩

/-- Witness for C17: `gcd(-7, 3)` takes the remainder `-7 % 3 = -1`, of
absolute value `1 < 3`, and returns with the bound 4. -/
theorem gcd_terminates_witness :
    (3 : Int) ≠ 0 ∧ ((-7 : Int).tmod 3).natAbs < (3 : Int).natAbs
    ∧ ∃ r, gcd 4 (-7) 3 = some r :=
  ⟨by decide, (gcd_terminates (-7) 3).1 (by decide),
    ((gcd_terminates (-7) 3).2.2).imp fun _ h => h 4 (by decide)⟩

/-! ## C18: `gcd` on integers of either sign -/

/-- C18: for all integers `a` and `b`, of either sign, `gcd(a, b)` returns a
result whose absolute value is the greatest common divisor of the absolute
values of `a` and `b`. The result itself can be negative: `gcd(4, -6)` is
`-2` and `gcd(-4, 0)` is `-4`. -/
theorem gcd_natAbs_correct (a b : Int) :
    (∃ r, (∀ fuel, b.natAbs < fuel → gcd fuel a b = some r)
      ∧ r.natAbs = Nat.gcd a.natAbs b.natAbs
      ∧ (r.natAbs : Int) = (Int.gcd a b : Int))
    ∧ gcd 7 4 (-6) = some (-2)
    ∧ gcd 1 (-4) 0 = some (-4) := by
  refine ⟨?_, by decide, by decide⟩
  obtain ⟨r, hr⟩ := gcd_result a b
  have h := gcd_natAbs (hr (b.natAbs + 1) (Nat.lt_succ_self _))
  exact ⟨r, hr, h, by rw [h]; rfl⟩

end CPP20
